import Mathlib

/-!
Verification development for the microbat repository: a shallow embedding of
the wire protocol (microbat_protocol), the SQL front end, the in-memory
catalog and the per-connection request handling (microbat_server), with
theorems settling the specification's claims about them.

Conventions of the embedding:

* Rust `String` values are represented by the list of their UTF-8 bytes
  (`RStr := List Nat`).  A Rust `String` is by definition a vector of valid
  UTF-8 bytes, `str.len()` is the byte length and `as_bytes` is the identity
  on that vector, so this representation makes serialization byte-exact.
  `String::from_utf8` applied to bytes that were produced by
  `String::as_bytes` always succeeds and returns the original string, so the
  decoder's UTF-8 step is modelled as the identity; the (never-claimed)
  failure on invalid UTF-8 byte sequences is not modelled.
* Machine integers: `i32` values are embedded as `Int`; wherever the source
  performs `i32` arithmetic the result is normalized with `wrap32`
  (two's-complement wrap-around, i.e. release-mode Rust overflow semantics).
  `u32` lengths are embedded as `Nat` and serialized modulo `2 ^ 32`, exactly
  like `as u32` casts in the source.
* Fallible Rust code is embedded with `RustRes`: `ok` for `Ok`, `err` for
  `Err`, and `panicked` for executions that panic (`unwrap`, `panic!`,
  `todo!`, out-of-bounds slicing).  Error payloads are embedded as inductive
  constructors carrying the arguments of the corresponding `format!` call.
-/

/-- Result of running a piece of fallible Rust code: `Ok`, `Err`, or a panic
(`unwrap` on `None`/`Err`, explicit `panic!`/`todo!`, out-of-bounds index). -/
inductive RustRes (ε : Type) (α : Type) where
  | ok (a : α)
  | err (e : ε)
  | panicked
  deriving DecidableEq, Repr

namespace RustRes

/-- Sequencing of fallible Rust computations (the `?` operator). -/
def bind {ε α β : Type} : RustRes ε α → (α → RustRes ε β) → RustRes ε β
  | ok a, f => f a
  | err e, _ => err e
  | panicked, _ => panicked

/-- Proposition that a result is an `Err`. -/
def isErr {ε α : Type} : RustRes ε α → Prop
  | ok _ => False
  | err _ => True
  | panicked => False

instance {ε α : Type} (r : RustRes ε α) : Decidable r.isErr := by
  cases r <;> simp [isErr] <;> infer_instance

end RustRes

/-- Bytes of a Rust `String`: the list of its UTF-8 bytes (see the header
comment; Rust strings are represented by their UTF-8 byte vectors). -/
abbrev RStr : Type := List Nat

namespace Wire

/-! Byte-level helpers shared by the serializers (`microbat_protocol`).  A
byte is a `Nat` (valid encodings keep each entry below 256). -/

/-- Little-endian 4-byte encoding of a length, as produced by
`(n as u32).to_le_bytes()` in the source (the cast truncates modulo `2^32`). -/
def le4 (n : Nat) : List Nat :=
  [n % 256, n / 256 % 256, n / 65536 % 256, n / 16777216 % 256]

/-- Little-endian 4-byte decoding, as in `u32::from_le_bytes` applied to a
4-byte slice.  Defined to be 0 on lists that do not have exactly 4 entries;
every call site guards the length first, as the source's slicing does. -/
def fromLe4 : List Nat → Nat
  | [a, b, c, d] => a + 256 * b + 65536 * c + 16777216 * d
  | _ => 0

theorem fromLe4_le4 {n : Nat} (h : n < 4294967296) : fromLe4 (le4 n) = n := by
  simp only [le4, fromLe4]
  omega

theorem le4_length (n : Nat) : (le4 n).length = 4 := rfl

/-- Big-endian 4-byte encoding of an `i32` value, as in
`i32::to_be_bytes` (two's complement). -/
def toBe4 (i : Int) : List Nat :=
  let u := (i % 4294967296).toNat
  [u / 16777216 % 256, u / 65536 % 256, u / 256 % 256, u % 256]

/-- Big-endian 4-byte decoding of an `i32` value, as in
`i32::from_be_bytes` (two's complement).  0 on ill-sized lists; the one call
site panics before reaching this on ill-sized slices. -/
def fromBe4 : List Nat → Int
  | [a, b, c, d] =>
    let u : Nat := 16777216 * a + 65536 * b + 256 * c + d
    if u < 2147483648 then (u : Int) else (u : Int) - 4294967296
  | _ => 0

theorem fromBe4_toBe4 {i : Int} (h₁ : -2147483648 ≤ i) (h₂ : i < 2147483648) :
    fromBe4 (toBe4 i) = i := by
  simp only [toBe4, fromBe4]
  omega

/-- Two's-complement wrap-around of an `i32` arithmetic result (release-mode
Rust overflow semantics). -/
def wrap32 (z : Int) : Int := (z + 2147483648) % 4294967296 - 2147483648

theorem wrap32_eq_self {z : Int} (h₁ : -2147483648 ≤ z) (h₂ : z < 2147483648) :
    wrap32 z = z := by
  simp only [wrap32]
  omega

end Wire

namespace Wire

/-! Data model of `microbat_protocol/src/data/mod.rs` (module `data_values`)
and `data/table_model.rs`. -/

/-- All datatypes without the actual values (`MDataType` in
`data/mod.rs`). -/
inductive MDataType where
  | null
  | integer
  | varchar
  deriving DecidableEq, Repr

/-- The serializable data values of microbat (`MData` in `data/mod.rs`).
`integer` carries an `i32` embedded as `Int`; `varchar` carries the UTF-8
bytes of the Rust `String`. -/
inductive MData where
  | null
  | integer (value : Int)
  | varchar (value : RStr)
  deriving DecidableEq, Repr

/-- Marker byte constants from `static_values.rs`
(`TYPE_BYTE_NULL = b'n'`, `TYPE_BYTE_INTEGER = b'i'`,
`TYPE_BYTE_VARCHAR = b'v'`). -/
def TYPE_BYTE_NULL : Nat := 110
def TYPE_BYTE_INTEGER : Nat := 105
def TYPE_BYTE_VARCHAR : Nat := 118

namespace MData

/-- `MData::bytes`: the payload bytes of one value (`Null` is empty,
`Varchar` its UTF-8 bytes, `Integer` its 4-byte big-endian encoding). -/
def bytes : MData → List Nat
  | null => []
  | varchar value => value
  | integer value => toBe4 value

/-- `MData::type_byte`. -/
def type_byte : MData → Nat
  | null => TYPE_BYTE_NULL
  | varchar _ => TYPE_BYTE_VARCHAR
  | integer _ => TYPE_BYTE_INTEGER

/-- `MData::matcher`: the `MDataType` of a value. -/
def matcher : MData → MDataType
  | null => MDataType.null
  | integer _ => MDataType.integer
  | varchar _ => MDataType.varchar

end MData

/-- A `DataError` from `data/mod.rs`; constructors mirror the `format!`
call sites that build the message strings. -/
inductive DataError where
  | cantApplyPlus (l r : MData)
  | cantApplyMinus (l r : MData)
  | cantBuildEmptySchema
  | tooManyColumns (got expected : Nat)
  | cantPutIntoIndex (t : MDataType) (index : Nat)
  | noSuchTable (name : RStr)
  | tableAlreadyExists (name : RStr)
  | cantPutThisHere
  | columnCountMismatch
  deriving DecidableEq, Repr

namespace MData

/-- `MData::apply_plus`: defined only on `Integer ⊕ Integer`, with `i32`
addition (wrap-around embedding of the release-mode overflow). -/
def apply_plus : MData → MData → RustRes DataError MData
  | integer l_value, integer r_value => .ok (integer (wrap32 (l_value + r_value)))
  | l, r => .err (DataError.cantApplyPlus l r)

/-- `MData::apply_minus`. -/
def apply_minus : MData → MData → RustRes DataError MData
  | integer l_value, integer r_value => .ok (integer (wrap32 (l_value - r_value)))
  | l, r => .err (DataError.cantApplyMinus l r)

end MData

/-- A `MicrobatProtocolError`; constructors mirror the message-building
sites in `microbat_protocol`. -/
inductive MicrobatProtocolError where
  | byteMismatch (expected got : Nat)
  | unknownMessageType (b : Nat)
  | unknownDataColumnMarker (b : Nat)
  deriving DecidableEq, Repr

/-- `deserialize_data_column` from `data/mod.rs`: dispatch on the marker
byte.  The `Integer` arm's `try_into().unwrap()` panics unless the slice has
exactly 4 bytes; the `Varchar` arm's `String::from_utf8` is the identity on
bytes coming from a Rust string (see the header comment). -/
def deserialize_data_column (marker : Nat) (bytes : List Nat) :
    RustRes MicrobatProtocolError MData :=
  if marker = TYPE_BYTE_NULL then .ok MData.null
  else if marker = TYPE_BYTE_INTEGER then
    if bytes.length = 4 then .ok (MData.integer (fromBe4 bytes)) else .panicked
  else if marker = TYPE_BYTE_VARCHAR then .ok (MData.varchar bytes)
  else .err (MicrobatProtocolError.unknownDataColumnMarker marker)

/-- `Column` from `data/table_model.rs` (also re-declared in `data/mod.rs`):
a named, typed result column. -/
structure Column where
  name : RStr
  data_type : MDataType
  deriving DecidableEq, Repr

/-- `DataDescription`: the serializable description of incoming rows. -/
structure DataDescription where
  columns : List Column
  deriving DecidableEq, Repr

/-- `DataRow`: one row in a result set. -/
structure DataRow where
  columns : List MData
  deriving DecidableEq, Repr

/-! Message-type marker bytes and fixed payloads from `static_values.rs`.
The payload constants are the UTF-8 bytes of the string literals. -/

def CLIENT_MSG_TYPE_HANDSHAKE : Nat := 97
def CLIENT_MSG_TYPE_QUERY : Nat := 113
def CLIENT_MSG_TYPE_DISCONNECT : Nat := 100

/-- Bytes of `"hello microbat"`. -/
def CLIENT_HANDSHAKE_PAYLOAD : RStr :=
  [104, 101, 108, 108, 111, 32, 109, 105, 99, 114, 111, 98, 97, 116]

/-- Bytes of `"bye and so on"`. -/
def CLIENT_DISCONNECT_PAYLOAD : RStr :=
  [98, 121, 101, 32, 97, 110, 100, 32, 115, 111, 32, 111, 110]

def SERVER_MSG_TYPE_HANDSHAKE : Nat := 98
def SERVER_MSG_TYPE_READY_FOR_QUERY : Nat := 120
def SERVER_MSG_TYPE_ERROR : Nat := 101
def SERVER_MSG_TYPE_ROW_DESCRIPTION : Nat := 114
def SERVER_MSG_TYPE_DATA_ROW : Nat := 100
def SERVER_MSG_TYPE_INSERT_RESULT : Nat := 105

/-- Bytes of `"hello client"`. -/
def SERVER_HANDSHAKE_PAYLOAD : RStr :=
  [104, 101, 108, 108, 111, 32, 99, 108, 105, 101, 110, 116]

/-- Bytes of `"shoot"`. -/
def SERVER_READY_PAYLOAD : RStr := [115, 104, 111, 111, 116]

/-- `MicrobatMessage::str_with_length`: `[LENGTH:4 LE, STR_BYTES]`. -/
def str_with_length (payload : RStr) : List Nat :=
  le4 payload.length ++ payload

/-- Enum of messages that can originate from the client
(`client_messages.rs`). -/
inductive MicrobatClientMessage where
  | handshake
  | query (query : RStr)
  | disconnect
  deriving DecidableEq, Repr

/-- `MicrobatClientMessage::as_bytes`: one marker byte followed by the
length-prefixed payload. -/
def MicrobatClientMessage.as_bytes : MicrobatClientMessage → List Nat
  | .handshake => CLIENT_MSG_TYPE_HANDSHAKE :: str_with_length CLIENT_HANDSHAKE_PAYLOAD
  | .disconnect => CLIENT_MSG_TYPE_DISCONNECT :: str_with_length CLIENT_DISCONNECT_PAYLOAD
  | .query q => CLIENT_MSG_TYPE_QUERY :: str_with_length q

/-- Enum of messages that can originate from the server
(`messages/server_messages.rs`). -/
inductive MicrobatServerMessage where
  | handshake
  | error (error : RStr)
  | dataDescription (d : DataDescription)
  | dataRow (r : DataRow)
  | insertResult (size : Nat)
  | ready
  deriving DecidableEq, Repr

/-- Column bytes of a `DataDescription`: the concatenation of
`str_with_length(column.name)` over its columns (the wire carries no column
types). -/
def dataDescriptionColumnBytes (columns : List Column) : List Nat :=
  (columns.map fun column => str_with_length column.name).flatten

/-- Column bytes of a `DataRow`: for each value one type byte, the 4-byte LE
length of its payload, then the payload. -/
def dataRowColumnBytes (columns : List MData) : List Nat :=
  (columns.map fun column =>
    column.type_byte :: le4 column.bytes.length ++ column.bytes).flatten

/-- `MicrobatServerMessage::as_bytes`. -/
def MicrobatServerMessage.as_bytes : MicrobatServerMessage → List Nat
  | .handshake => SERVER_MSG_TYPE_HANDSHAKE :: str_with_length SERVER_HANDSHAKE_PAYLOAD
  | .ready => SERVER_MSG_TYPE_READY_FOR_QUERY :: str_with_length SERVER_READY_PAYLOAD
  | .error e => SERVER_MSG_TYPE_ERROR :: str_with_length e
  | .dataDescription d =>
    SERVER_MSG_TYPE_ROW_DESCRIPTION ::
      le4 (dataDescriptionColumnBytes d.columns).length ++
        dataDescriptionColumnBytes d.columns
  | .dataRow r =>
    SERVER_MSG_TYPE_DATA_ROW ::
      le4 (dataRowColumnBytes r.columns).length ++ dataRowColumnBytes r.columns
  | .insertResult size =>
    SERVER_MSG_TYPE_INSERT_RESULT :: le4 4 ++ le4 size

end Wire

namespace Wire

/-- `deserialize_client_message` from `client_messages.rs`. -/
def deserialize_client_message (message_type : Nat) (length : Nat)
    (bytes : List Nat) : RustRes MicrobatProtocolError MicrobatClientMessage :=
  if length ≠ bytes.length then
    .err (MicrobatProtocolError.byteMismatch length bytes.length)
  else if message_type = CLIENT_MSG_TYPE_HANDSHAKE then .ok .handshake
  else if message_type = CLIENT_MSG_TYPE_DISCONNECT then .ok .disconnect
  else if message_type = CLIENT_MSG_TYPE_QUERY then .ok (.query bytes)
  else .err (MicrobatProtocolError.unknownMessageType message_type)

/-- Pointer loop of the `SERVER_MSG_TYPE_ROW_DESCRIPTION` arm of
`deserialize_server_message`: while bytes remain, read a 4-byte LE name
length and the name, and push a column whose `data_type` is always
`MDataType::Integer` (the source marks this arm `TODO: this is WRONG!`).
Out-of-range slices panic.  The fuel argument only bounds the iteration
count; the wrapper passes more fuel than the loop can consume. -/
def dataDescriptionColumnsLoop :
    Nat → List Nat → RustRes MicrobatProtocolError (List Column)
  | 0, _ => .panicked
  | _ + 1, [] => .ok []
  | fuel + 1, b :: rest =>
    let bs := b :: rest
    if 4 ≤ bs.length then
      let column_length := fromLe4 (bs.take 4)
      let body := bs.drop 4
      if column_length ≤ body.length then
        RustRes.bind
          (dataDescriptionColumnsLoop fuel (body.drop column_length)) fun cs =>
          .ok ({ name := body.take column_length,
                 data_type := MDataType.integer } :: cs)
      else .panicked
    else .panicked

/-- Pointer loop of the `SERVER_MSG_TYPE_DATA_ROW` arm of
`deserialize_server_message`: read a type byte, a 4-byte LE value length and
the value bytes, and decode the value with `deserialize_data_column`. -/
def dataRowColumnsLoop :
    Nat → List Nat → RustRes MicrobatProtocolError (List MData)
  | 0, _ => .panicked
  | _ + 1, [] => .ok []
  | fuel + 1, column_type :: rest =>
    if 4 ≤ rest.length then
      let column_length := fromLe4 (rest.take 4)
      let body := rest.drop 4
      if column_length ≤ body.length then
        RustRes.bind (deserialize_data_column column_type (body.take column_length))
          fun v =>
            RustRes.bind (dataRowColumnsLoop fuel (body.drop column_length))
              fun vs => .ok (v :: vs)
      else .panicked
    else .panicked

/-- `deserialize_server_message` from `messages/server_messages.rs`. -/
def deserialize_server_message (message_type : Nat) (length : Nat)
    (bytes : List Nat) : RustRes MicrobatProtocolError MicrobatServerMessage :=
  if length ≠ bytes.length then
    .err (MicrobatProtocolError.byteMismatch length bytes.length)
  else if message_type = SERVER_MSG_TYPE_HANDSHAKE then .ok .handshake
  else if message_type = SERVER_MSG_TYPE_READY_FOR_QUERY then .ok .ready
  else if message_type = SERVER_MSG_TYPE_ERROR then .ok (.error bytes)
  else if message_type = SERVER_MSG_TYPE_ROW_DESCRIPTION then
    RustRes.bind (dataDescriptionColumnsLoop (bytes.length + 1) bytes) fun cs =>
      .ok (.dataDescription { columns := cs })
  else if message_type = SERVER_MSG_TYPE_DATA_ROW then
    RustRes.bind (dataRowColumnsLoop (bytes.length + 1) bytes) fun vs =>
      .ok (.dataRow { columns := vs })
  else if message_type = SERVER_MSG_TYPE_INSERT_RESULT then
    if bytes.length = 4 then .ok (.insertResult (fromLe4 bytes)) else .panicked
  else .err (MicrobatProtocolError.unknownMessageType message_type)

/-- Serialize a server message and feed the bytes back through the decoding
path of `read_message`: the first byte is the message type, the next four
little-endian bytes give the payload length, and the deserializer receives
that length together with the remaining bytes. -/
def serverRoundTrip (m : MicrobatServerMessage) :
    RustRes MicrobatProtocolError MicrobatServerMessage :=
  match m.as_bytes with
  | t :: bs => deserialize_server_message t (fromLe4 (bs.take 4)) (bs.drop 4)
  | [] => .panicked

/-- Serialize a client message and feed the bytes back through the decoding
path of `read_message`. -/
def clientRoundTrip (m : MicrobatClientMessage) :
    RustRes MicrobatProtocolError MicrobatClientMessage :=
  match m.as_bytes with
  | t :: bs => deserialize_client_message t (fromLe4 (bs.take 4)) (bs.drop 4)
  | [] => .panicked

theorem take4_le4_append (n : Nat) (x : List Nat) : (le4 n ++ x).take 4 = le4 n := by
  simp [le4]

theorem drop4_le4_append (n : Nat) (x : List Nat) : (le4 n ++ x).drop 4 = x := by
  simp [le4]

end Wire

namespace Wire

/-- Well-formedness of a value for the wire: the `i32` payload of `integer`
is in two's-complement range, and a `varchar` payload is short enough that
the `usize → u32` length casts along its encoding do not truncate. -/
def MDataWireValid : MData → Prop
  | MData.null => True
  | MData.integer i => -2147483648 ≤ i ∧ i < 2147483648
  | MData.varchar s => s.length + 5 < 4294967296

theorem bytes_take_length (V : MData) : V.bytes.take V.bytes.length = V.bytes :=
  List.take_length V.bytes

theorem serverRoundTrip_eq (m : MicrobatServerMessage) (t : Nat) (bs : List Nat)
    (h : m.as_bytes = t :: bs) :
    serverRoundTrip m = deserialize_server_message t (fromLe4 (bs.take 4)) (bs.drop 4) := by
  simp [serverRoundTrip, h]

theorem dataRowColumnsLoop_nil {fuel : Nat} (h : 0 < fuel) :
    dataRowColumnsLoop fuel [] = .ok [] := by
  cases fuel with
  | zero => omega
  | succ n => rfl

theorem dataRowColumnsLoop_cons (fuel : Nat) (tb : Nat) (v rest : List Nat)
    (hv : v.length < 4294967296) :
    dataRowColumnsLoop (fuel + 1) (tb :: (le4 v.length ++ (v ++ rest)))
      = RustRes.bind (deserialize_data_column tb v) fun d =>
          RustRes.bind (dataRowColumnsLoop fuel rest) fun ds => .ok (d :: ds) := by
  rw [dataRowColumnsLoop]
  rw [if_pos (by simp [le4])]
  rw [take4_le4_append, drop4_le4_append, fromLe4_le4 hv]
  rw [if_pos (by simp)]
  rw [show (v ++ rest).take v.length = v from List.take_left v rest,
    show (v ++ rest).drop v.length = rest from List.drop_left v rest]

theorem dataRow_single_roundtrip_aux (V : MData)
    (h : V.bytes.length + 5 < 4294967296)
    (hdec : deserialize_data_column V.type_byte V.bytes = .ok V) :
    serverRoundTrip (.dataRow { columns := [V] }) =
      .ok (.dataRow { columns := [V] }) := by
  have hcb : dataRowColumnBytes [V]
      = V.type_byte :: (le4 V.bytes.length ++ (V.bytes ++ [])) := by
    simp [dataRowColumnBytes]
  have hlen : (dataRowColumnBytes [V]).length = 5 + V.bytes.length := by
    simp [hcb, le4]
    omega
  have hbytes : (MicrobatServerMessage.dataRow { columns := [V] }).as_bytes
      = SERVER_MSG_TYPE_DATA_ROW ::
          (le4 (5 + V.bytes.length) ++ dataRowColumnBytes [V]) := by
    simp [MicrobatServerMessage.as_bytes, hlen]
  rw [serverRoundTrip_eq _ _ _ hbytes, take4_le4_append, drop4_le4_append,
    fromLe4_le4 (by omega : 5 + V.bytes.length < 4294967296)]
  rw [deserialize_server_message]
  rw [if_neg (by omega : ¬ 5 + V.bytes.length ≠ (dataRowColumnBytes [V]).length)]
  rw [if_neg (by simp [SERVER_MSG_TYPE_DATA_ROW, SERVER_MSG_TYPE_HANDSHAKE]),
    if_neg (by simp [SERVER_MSG_TYPE_DATA_ROW, SERVER_MSG_TYPE_READY_FOR_QUERY]),
    if_neg (by simp [SERVER_MSG_TYPE_DATA_ROW, SERVER_MSG_TYPE_ERROR]),
    if_neg (by simp [SERVER_MSG_TYPE_DATA_ROW, SERVER_MSG_TYPE_ROW_DESCRIPTION]),
    if_pos (rfl : SERVER_MSG_TYPE_DATA_ROW = SERVER_MSG_TYPE_DATA_ROW)]
  rw [show (dataRowColumnBytes [V]).length + 1 = (4 + V.bytes.length) + 1 + 1 from by omega]
  rw [hcb, dataRowColumnsLoop_cons _ _ _ _ (by omega)]
  rw [hdec]
  rw [RustRes.bind, dataRowColumnsLoop_nil (by omega), RustRes.bind, RustRes.bind]

end Wire

namespace Wire

/-- Message type byte of a client message, as pushed first by `as_bytes`. -/
def MicrobatClientMessage.type_byte : MicrobatClientMessage → Nat
  | .handshake => CLIENT_MSG_TYPE_HANDSHAKE
  | .disconnect => CLIENT_MSG_TYPE_DISCONNECT
  | .query _ => CLIENT_MSG_TYPE_QUERY

/-- Payload bytes of a client message: everything after the type byte and
the 4-byte length field. -/
def MicrobatClientMessage.payload : MicrobatClientMessage → List Nat
  | .handshake => CLIENT_HANDSHAKE_PAYLOAD
  | .disconnect => CLIENT_DISCONNECT_PAYLOAD
  | .query q => q

/-- Message type byte of a server message. -/
def MicrobatServerMessage.type_byte : MicrobatServerMessage → Nat
  | .handshake => SERVER_MSG_TYPE_HANDSHAKE
  | .ready => SERVER_MSG_TYPE_READY_FOR_QUERY
  | .error _ => SERVER_MSG_TYPE_ERROR
  | .dataDescription _ => SERVER_MSG_TYPE_ROW_DESCRIPTION
  | .dataRow _ => SERVER_MSG_TYPE_DATA_ROW
  | .insertResult _ => SERVER_MSG_TYPE_INSERT_RESULT

/-- Payload bytes of a server message. -/
def MicrobatServerMessage.payload : MicrobatServerMessage → List Nat
  | .handshake => SERVER_HANDSHAKE_PAYLOAD
  | .ready => SERVER_READY_PAYLOAD
  | .error e => e
  | .dataDescription d => dataDescriptionColumnBytes d.columns
  | .dataRow r => dataRowColumnBytes r.columns
  | .insertResult size => le4 size

theorem frame_shape_aux (t : Nat) (p : List Nat) (h : p.length < 4294967296) :
    fromLe4 (((t :: (le4 p.length ++ p)).drop 1).take 4) = p.length ∧
    (t :: (le4 p.length ++ p)).drop 5 = p ∧
    (t :: (le4 p.length ++ p)).length = 5 + p.length := by
  refine ⟨?_, ?_, ?_⟩
  · rw [List.drop_succ_cons, List.drop_zero, take4_le4_append, fromLe4_le4 h]
  · show (le4 p.length ++ p).drop 4 = p
    exact drop4_le4_append _ _
  · simp [le4]
    omega

end Wire

/-- C5: for every value `V` in `{Null, Integer(i), Varchar(s)}` (with `i` in
`i32` range and `s` any byte string, including the empty one, short enough
for the `u32` length fields), serializing `V` inside a `DATA_ROW` frame —
one type-tag byte, a 4-byte little-endian length, then the value bytes, with
`Integer` encoded as 4-byte big-endian `i32` — and deserializing the frame
yields exactly `V`. -/
theorem c5_dataRow_value_roundtrip (V : Wire.MData) (h : Wire.MDataWireValid V) :
    Wire.serverRoundTrip (.dataRow { columns := [V] })
      = .ok (.dataRow { columns := [V] }) := by
  cases V with
  | null => decide
  | integer i =>
    obtain ⟨h1, h2⟩ := h
    refine Wire.dataRow_single_roundtrip_aux _ (by simp [Wire.MData.bytes, Wire.toBe4]) ?_
    have hlen : (Wire.toBe4 i).length = 4 := rfl
    simp [Wire.deserialize_data_column, Wire.MData.bytes, Wire.MData.type_byte,
      Wire.TYPE_BYTE_INTEGER, Wire.TYPE_BYTE_NULL, hlen, Wire.fromBe4_toBe4 h1 h2]
  | varchar s =>
    refine Wire.dataRow_single_roundtrip_aux _ h ?_
    simp [Wire.deserialize_data_column, Wire.MData.bytes, Wire.MData.type_byte,
      Wire.TYPE_BYTE_VARCHAR, Wire.TYPE_BYTE_INTEGER, Wire.TYPE_BYTE_NULL]

/-- Witness for C5: concrete round trips of a `Null`, an `Integer` and an
empty-string `Varchar` value through a `DATA_ROW` frame. -/
theorem c5_dataRow_value_roundtrip_witness :
    Wire.serverRoundTrip (.dataRow { columns := [Wire.MData.integer (-5)] })
      = .ok (.dataRow { columns := [Wire.MData.integer (-5)] }) ∧
    Wire.serverRoundTrip (.dataRow { columns := [Wire.MData.varchar []] })
      = .ok (.dataRow { columns := [Wire.MData.varchar []] }) ∧
    Wire.serverRoundTrip (.dataRow { columns := [Wire.MData.null] })
      = .ok (.dataRow { columns := [Wire.MData.null] }) :=
  ⟨c5_dataRow_value_roundtrip _ (by constructor <;> decide),
   c5_dataRow_value_roundtrip _ (by simp [Wire.MDataWireValid]),
   c5_dataRow_value_roundtrip _ trivial⟩

/-- C1: evaluation of the round trip at the failing input.  Serializing a
`DataDescription` whose single column is `{name: "foo", data_type: Varchar}`
and deserializing the bytes yields a column typed `Integer`, not `Varchar`:
`deserialize_server_message` reconstructs every column as
`MDataType::Integer` (the source comments the arm `TODO: this is WRONG!`),
so `deserialize(serialize(M)) = M` fails for `DataDescription` messages
whose columns carry a non-`Integer` data type.  (`[102, 111, 111]` is the
UTF-8 encoding of `"foo"`.) -/
theorem c1_dataDescription_roundtrip_loses_column_type :
    Wire.serverRoundTrip
        (.dataDescription { columns :=
          [{ name := [102, 111, 111], data_type := Wire.MDataType.varchar }] })
      = .ok (.dataDescription { columns :=
          [{ name := [102, 111, 111], data_type := Wire.MDataType.integer }] }) ∧
    Wire.MicrobatServerMessage.dataDescription { columns :=
        [{ name := [102, 111, 111], data_type := Wire.MDataType.integer }] }
      ≠ .dataDescription { columns :=
        [{ name := [102, 111, 111], data_type := Wire.MDataType.varchar }] } := by
  constructor
  · decide
  · decide

/-- C9: every client and every server message serializes to exactly
`[type:1][length:4 LE][payload]`: the bytes are the type byte followed by
the 4-byte little-endian encoding of the payload length followed by the
payload, and (whenever the payload is short enough that the `u32` cast does
not truncate) the length field decodes to exactly the number of bytes that
follow it, with no trailing bytes after the payload. -/
theorem c9_frame_shape :
    (∀ m : Wire.MicrobatClientMessage,
      m.as_bytes = m.type_byte :: (Wire.le4 m.payload.length ++ m.payload) ∧
      (m.payload.length < 4294967296 →
        Wire.fromLe4 ((m.as_bytes.drop 1).take 4) = m.payload.length ∧
        m.as_bytes.drop 5 = m.payload ∧
        m.as_bytes.length = 5 + m.payload.length)) ∧
    (∀ m : Wire.MicrobatServerMessage,
      m.as_bytes = m.type_byte :: (Wire.le4 m.payload.length ++ m.payload) ∧
      (m.payload.length < 4294967296 →
        Wire.fromLe4 ((m.as_bytes.drop 1).take 4) = m.payload.length ∧
        m.as_bytes.drop 5 = m.payload ∧
        m.as_bytes.length = 5 + m.payload.length)) := by
  constructor
  · intro m
    have hshape : m.as_bytes = m.type_byte :: (Wire.le4 m.payload.length ++ m.payload) := by
      cases m <;> rfl
    refine ⟨hshape, fun h => ?_⟩
    rw [hshape]
    exact Wire.frame_shape_aux _ _ h
  · intro m
    have hshape : m.as_bytes = m.type_byte :: (Wire.le4 m.payload.length ++ m.payload) := by
      cases m <;> rfl
    refine ⟨hshape, fun h => ?_⟩
    rw [hshape]
    exact Wire.frame_shape_aux _ _ h

/-- Witness for C9: the frame-shape theorem instantiated at the server
`Ready` message, with its payload-length hypothesis discharged. -/
theorem c9_frame_shape_witness :
    Wire.MicrobatServerMessage.ready.as_bytes
      = Wire.MicrobatServerMessage.ready.type_byte ::
          (Wire.le4 Wire.MicrobatServerMessage.ready.payload.length ++
            Wire.MicrobatServerMessage.ready.payload) ∧
    Wire.fromLe4 ((Wire.MicrobatServerMessage.ready.as_bytes.drop 1).take 4)
      = Wire.MicrobatServerMessage.ready.payload.length :=
  ⟨(c9_frame_shape.2 .ready).1, ((c9_frame_shape.2 .ready).2 (by decide)).1⟩

namespace Db

/-! Embedding of the in-memory catalog, `microbat_server/src/db/manager.rs`.
The two `HashMap`s of `InMemoryManager` are embedded as association lists;
no claim depends on `HashMap` iteration order, and lookup/insertion are
keyed exactly as in the source. -/

/-- `HashMap::get`. -/
def lookupAssoc {α : Type} : List (RStr × α) → RStr → Option α
  | [], _ => none
  | (k', v) :: rest, k => if k' = k then some v else lookupAssoc rest k

/-- `HashMap::insert`: overwrite the binding of the key, or append one. -/
def setAssoc {α : Type} : List (RStr × α) → RStr → α → List (RStr × α)
  | [], k, v => [(k, v)]
  | (k', v') :: rest, k, v =>
    if k' = k then (k, v) :: rest else (k', v') :: setAssoc rest k v

theorem lookupAssoc_setAssoc_self {α : Type} (m : List (RStr × α)) (k : RStr) (v : α) :
    lookupAssoc (setAssoc m k v) k = some v := by
  induction m with
  | nil => simp [lookupAssoc, setAssoc]
  | cons hd tl ih =>
    obtain ⟨k', v'⟩ := hd
    by_cases h : k' = k
    · simp [setAssoc, h, lookupAssoc]
    · simp [setAssoc, h, lookupAssoc, ih]

theorem lookupAssoc_setAssoc_ne {α : Type} (m : List (RStr × α)) (k k' : RStr) (v : α)
    (h : k ≠ k') : lookupAssoc (setAssoc m k v) k' = lookupAssoc m k' := by
  induction m with
  | nil => simp [lookupAssoc, setAssoc, h]
  | cons hd tl ih =>
    obtain ⟨k₀, v₀⟩ := hd
    by_cases h0 : k₀ = k
    · simp [setAssoc, h0, lookupAssoc, h]
    · simp [setAssoc, h0, lookupAssoc, ih]

/-- `TableSchema` from `data/table_model.rs`. -/
structure TableSchema where
  columns : List Wire.Column
  deriving DecidableEq, Repr

/-- `TableSchema::new`: fails on an empty column list. -/
def TableSchema.new (columns : List Wire.Column) :
    RustRes Wire.DataError TableSchema :=
  if columns.isEmpty then .err .cantBuildEmptySchema else .ok { columns }

/-- `TableSchema::len`. -/
def TableSchema.len (s : TableSchema) : Nat := s.columns.length

/-- `TableMetadata` from `db/manager.rs`. -/
structure TableMetadata where
  name : RStr
  schema : TableSchema
  deriving DecidableEq, Repr

/-- `InMemoryManager` from `db/manager.rs`: table metadata and row storage,
both keyed by table name. -/
structure InMemoryManager where
  tables : List (RStr × TableMetadata)
  data : List (RStr × List (List Wire.MData))
  deriving DecidableEq, Repr

/-- `InMemoryManager::new`. -/
def InMemoryManager.new : InMemoryManager := { tables := [], data := [] }

/-- `InMemoryManager::get_table_meta`. -/
def InMemoryManager.get_table_meta (m : InMemoryManager) (name : RStr) :
    RustRes Wire.DataError TableMetadata :=
  match lookupAssoc m.tables name with
  | some table_metadata => .ok table_metadata
  | none => .err (.noSuchTable name)

/-- `InMemoryManager::create_table`. -/
def InMemoryManager.create_table (m : InMemoryManager) (name : RStr)
    (columns : List Wire.Column) : RustRes Wire.DataError InMemoryManager :=
  if (lookupAssoc m.tables name).isSome then .err (.tableAlreadyExists name)
  else
    RustRes.bind (TableSchema.new columns) fun schema =>
      .ok { tables := setAssoc m.tables name { name := name, schema := schema },
            data := setAssoc m.data name [] }

/-- Check loop of `InMemoryManager::insert`:
`for (index, column) in schema.columns.iter().enumerate()`, each schema
column is compared with `colums.get(index)`; a missing value is a
column-count mismatch, a type mismatch is rejected.  Indices beyond the
schema length are never examined. -/
def insertCheck : List Wire.Column → List Wire.MData → Nat → RustRes Wire.DataError Unit
  | [], _, _ => .ok ()
  | column :: rest, colums, index =>
    match colums.get? index with
    | some data =>
      if column.data_type ≠ data.matcher then .err .cantPutThisHere
      else insertCheck rest colums (index + 1)
    | none => .err .columnCountMismatch

/-- `InMemoryManager::insert`: look up the table, run the check loop from
index 0, then `self.data.get_mut(table_name).unwrap().push(colums)` (the
`unwrap` panics if the row storage has no entry for the table). -/
def InMemoryManager.insert (m : InMemoryManager) (table_name : RStr)
    (colums : List Wire.MData) : RustRes Wire.DataError InMemoryManager :=
  RustRes.bind (m.get_table_meta table_name) fun table_metadata =>
    RustRes.bind (insertCheck table_metadata.schema.columns colums 0) fun _ =>
      match lookupAssoc m.data table_name with
      | some rows =>
        .ok { m with data := setAssoc m.data table_name (rows ++ [colums]) }
      | none => .panicked

/-- Row-cloning loop of `InMemoryManager::fetch`: each row is rebuilt by
pushing clones of its items. -/
def cloneRows (rows : List (List Wire.MData)) : List (List Wire.MData) :=
  rows.map fun row => row.map fun item => item

theorem cloneRows_eq (rows : List (List Wire.MData)) : cloneRows rows = rows := by
  simp [cloneRows]

/-- `InMemoryManager::fetch`: a deep clone of all rows of the table, in
storage order (`self.data.get(table_name).unwrap()` panics if the row
storage has no entry). -/
def InMemoryManager.fetch (m : InMemoryManager) (table_name : RStr) :
    RustRes Wire.DataError (List (List Wire.MData)) :=
  RustRes.bind (m.get_table_meta table_name) fun _ =>
    match lookupAssoc m.data table_name with
    | some rows => .ok (cloneRows rows)
    | none => .panicked

end Db

namespace Db

theorem insertCheck_err_of_short (cols : List Wire.Column) (vals : List Wire.MData) :
    ∀ index : Nat, vals.length < index + cols.length → index ≤ vals.length →
      (insertCheck cols vals index).isErr := by
  induction cols with
  | nil =>
    intro index h1 h2
    simp only [List.length_nil] at h1
    omega
  | cons c rest ih =>
    intro index h1 h2
    simp only [List.length_cons] at h1
    rw [insertCheck]
    rcases Nat.lt_or_ge index vals.length with hlt | hge
    · simp only [List.get?_eq_get hlt]
      by_cases hty : c.data_type ≠ (vals.get ⟨index, hlt⟩).matcher
      · rw [if_pos hty]
        simp [RustRes.isErr]
      · rw [if_neg hty]
        exact ih (index + 1) (by omega) (by omega)
    · simp only [List.get?_eq_none.mpr (by omega : vals.length ≤ index)]
      simp [RustRes.isErr]

theorem insertCheck_err_of_mismatch (cols : List Wire.Column) (vals : List Wire.MData) :
    ∀ index i : Nat, ∀ ci : Wire.Column, ∀ vi : Wire.MData,
      cols.get? i = some ci → vals.get? (index + i) = some vi →
      ci.data_type ≠ vi.matcher → (insertCheck cols vals index).isErr := by
  induction cols with
  | nil =>
    intro index i ci vi hci
    simp at hci
  | cons c rest ih =>
    intro index i ci vi hci hvi hne
    have hbound : index + i < vals.length := (List.get?_eq_some.mp hvi).1
    have hidx : index < vals.length := by omega
    rw [insertCheck]
    cases i with
    | zero =>
      have hc : ci = c := by
        have := hci
        simp at this
        exact this.symm
      have hv : vals.get ⟨index, hidx⟩ = vi := by
        have := List.get?_eq_get hidx
        rw [Nat.add_zero] at hvi
        rw [this] at hvi
        exact Option.some.inj hvi
      simp only [List.get?_eq_get hidx]
      rw [if_pos (by rw [hv, ← hc]; exact hne)]
      simp [RustRes.isErr]
    | succ i' =>
      have hci' : rest.get? i' = some ci := by simpa using hci
      have hvi' : vals.get? (index + 1 + i') = some vi := by
        rw [show index + 1 + i' = index + (i' + 1) from by omega]
        exact hvi
      simp only [List.get?_eq_get hidx]
      by_cases hty : c.data_type ≠ (vals.get ⟨index, hidx⟩).matcher
      · rw [if_pos hty]
        simp [RustRes.isErr]
      · rw [if_neg hty]
        exact ih (index + 1) i' ci vi hci' hvi' hne

theorem insert_ok_spec (m m' : InMemoryManager) (table_name : RStr)
    (colums : List Wire.MData) (h : m.insert table_name colums = .ok m') :
    ∃ rows, lookupAssoc m.data table_name = some rows ∧
      m'.tables = m.tables ∧
      m'.data = setAssoc m.data table_name (rows ++ [colums]) := by
  unfold InMemoryManager.insert at h
  cases hmeta : m.get_table_meta table_name with
  | ok md =>
    rw [hmeta] at h
    simp only [RustRes.bind] at h
    cases hchk : insertCheck md.schema.columns colums 0 with
    | ok u =>
      rw [hchk] at h
      simp only [RustRes.bind] at h
      cases hdata : lookupAssoc m.data table_name with
      | some rows =>
        rw [hdata] at h
        simp only [RustRes.ok.injEq] at h
        exact ⟨rows, rfl, by rw [← h], by rw [← h]⟩
      | none =>
        rw [hdata] at h
        exact absurd h (by simp)
    | err e =>
      rw [hchk] at h
      exact absurd h (by simp [RustRes.bind])
    | panicked =>
      rw [hchk] at h
      exact absurd h (by simp [RustRes.bind])
  | err e =>
    rw [hmeta] at h
    exact absurd h (by simp [RustRes.bind])
  | panicked =>
    rw [hmeta] at h
    exact absurd h (by simp [RustRes.bind])

end Db

namespace Db

/-- Folding `InMemoryManager::insert` over a list of rows, stopping at the
first failure: `N` consecutive insert calls into the same table. -/
def insertAll (m : InMemoryManager) (name : RStr) :
    List (List Wire.MData) → RustRes Wire.DataError InMemoryManager
  | [] => .ok m
  | r :: rest => RustRes.bind (m.insert name r) fun m' => insertAll m' name rest

theorem insertAll_ok_spec (name : RStr) :
    ∀ (rows : List (List Wire.MData)) (m m2 : InMemoryManager)
      (acc : List (List Wire.MData)),
      lookupAssoc m.data name = some acc →
      insertAll m name rows = .ok m2 →
      lookupAssoc m2.data name = some (acc ++ rows) ∧ m2.tables = m.tables := by
  intro rows
  induction rows with
  | nil =>
    intro m m2 acc hacc hall
    simp only [insertAll, RustRes.ok.injEq] at hall
    subst hall
    simpa using hacc
  | cons r rest ih =>
    intro m m2 acc hacc hall
    simp only [insertAll] at hall
    cases hins : m.insert name r with
    | ok m' =>
      rw [hins] at hall
      simp only [RustRes.bind] at hall
      obtain ⟨rows0, hrows0, htab, hdata⟩ := insert_ok_spec m m' name r hins
      have hacc' : rows0 = acc := by
        rw [hacc] at hrows0
        exact (Option.some.inj hrows0).symm
      have hm' : lookupAssoc m'.data name = some (acc ++ [r]) := by
        rw [hdata, hacc', lookupAssoc_setAssoc_self]
      obtain ⟨h1, h2⟩ := ih m' m2 (acc ++ [r]) hm' hall
      refine ⟨?_, by rw [h2, htab]⟩
      rw [h1]
      simp
    | err e =>
      rw [hins] at hall
      exact absurd hall (by simp [RustRes.bind])
    | panicked =>
      rw [hins] at hall
      exact absurd hall (by simp [RustRes.bind])

theorem create_table_ok_spec (m m1 : InMemoryManager) (name : RStr)
    (cols : List Wire.Column) (h : m.create_table name cols = .ok m1) :
    cols ≠ [] ∧
    m1.tables = setAssoc m.tables name { name := name, schema := { columns := cols } } ∧
    m1.data = setAssoc m.data name [] := by
  unfold InMemoryManager.create_table at h
  by_cases hex : (lookupAssoc m.tables name).isSome
  · rw [if_pos hex] at h
    exact absurd h (by simp)
  · rw [if_neg hex] at h
    unfold TableSchema.new at h
    by_cases hemp : cols.isEmpty
    · rw [if_pos hemp] at h
      exact absurd h (by simp [RustRes.bind])
    · rw [if_neg hemp] at h
      simp only [RustRes.bind, RustRes.ok.injEq] at h
      subst h
      exact ⟨by simpa [List.isEmpty_iff] using hemp, rfl, rfl⟩

end Db

/-- C3 counterexample: the claim states that `insert` fails whenever the
length of the value list differs from the schema length, *including when the
values are longer*.  On the code this is false: on a single-column table
(`"T" = [84]`, column `"id" = [105, 100]` of type `Integer`), inserting the
two-value row `[Integer 1, Integer 2]` succeeds and appends the whole
oversized row, because the check loop of `InMemoryManager::insert` iterates
over schema columns only and never notices extra values. -/
theorem c3_insert_longer_row_accepted :
    Db.InMemoryManager.insert
        { tables := [([84], { name := [84], schema :=
            { columns := [{ name := [105, 100],
                            data_type := Wire.MDataType.integer }] } })],
          data := [([84], [])] }
        [84] [Wire.MData.integer 1, Wire.MData.integer 2]
      = .ok
        { tables := [([84], { name := [84], schema :=
            { columns := [{ name := [105, 100],
                            data_type := Wire.MDataType.integer }] } })],
          data := [([84], [[Wire.MData.integer 1, Wire.MData.integer 2]])] } ∧
    [Wire.MData.integer 1, Wire.MData.integer 2].length
      ≠ (Db.TableSchema.len
          { columns := [{ name := [105, 100],
                          data_type := Wire.MDataType.integer }] }) := by
  constructor
  · decide
  · decide

/-- C3 as amended: for every catalog state and every `insert(table, values)`
call, the call errors when the table is missing, when `values` is *shorter*
than the schema, or when some `values[i]` within the schema's length has the
wrong type; whenever the call returns (the embedding is pure, so an error
returns no new state and the stored data is the untouched input state), and
on success the new state appends exactly the given row — but a `values` list
*longer* than the schema is not rejected: the oversized row is appended as
given. -/
theorem c3_insert_contract (m : Db.InMemoryManager) (name : RStr)
    (vals : List Wire.MData) :
    (Db.lookupAssoc m.tables name = none →
      m.insert name vals = .err (Wire.DataError.noSuchTable name)) ∧
    (∀ md : Db.TableMetadata, Db.lookupAssoc m.tables name = some md →
      vals.length < md.schema.len → (m.insert name vals).isErr) ∧
    (∀ (md : Db.TableMetadata) (i : Nat) (ci : Wire.Column) (vi : Wire.MData),
      Db.lookupAssoc m.tables name = some md →
      md.schema.columns.get? i = some ci → vals.get? i = some vi →
      ci.data_type ≠ vi.matcher → (m.insert name vals).isErr) ∧
    (∀ m' : Db.InMemoryManager, m.insert name vals = .ok m' →
      ∃ rows, Db.lookupAssoc m.data name = some rows ∧
        m'.tables = m.tables ∧
        m'.data = Db.setAssoc m.data name (rows ++ [vals])) := by
  refine ⟨?_, ?_, ?_, ?_⟩
  · intro hnone
    unfold Db.InMemoryManager.insert Db.InMemoryManager.get_table_meta
    rw [hnone]
    rfl
  · intro md hmd hlen
    unfold Db.InMemoryManager.insert
    rw [show m.get_table_meta name = .ok md from by
      unfold Db.InMemoryManager.get_table_meta; rw [hmd]]
    simp only [RustRes.bind]
    have hchk := Db.insertCheck_err_of_short md.schema.columns vals 0
      (by simpa [Db.TableSchema.len] using hlen) (by omega)
    cases hc : Db.insertCheck md.schema.columns vals 0 with
    | ok u =>
      rw [hc] at hchk
      exact absurd hchk (by simp [RustRes.isErr])
    | err e =>
      simp [RustRes.bind, RustRes.isErr]
    | panicked =>
      rw [hc] at hchk
      exact absurd hchk (by simp [RustRes.isErr])
  · intro md i ci vi hmd hci hvi hne
    unfold Db.InMemoryManager.insert
    rw [show m.get_table_meta name = .ok md from by
      unfold Db.InMemoryManager.get_table_meta; rw [hmd]]
    simp only [RustRes.bind]
    have hchk := Db.insertCheck_err_of_mismatch md.schema.columns vals 0 i ci vi
      hci (by simpa using hvi) hne
    cases hc : Db.insertCheck md.schema.columns vals 0 with
    | ok u =>
      rw [hc] at hchk
      exact absurd hchk (by simp [RustRes.isErr])
    | err e =>
      simp [RustRes.bind, RustRes.isErr]
    | panicked =>
      rw [hc] at hchk
      exact absurd hchk (by simp [RustRes.isErr])
  · intro m' h
    exact Db.insert_ok_spec m m' name vals h

/-- Example fixture: metadata of a one-column `Integer` table named
`"T" = [84]` with column `"id" = [105, 100]`. -/
def exTableMeta : Db.TableMetadata :=
  { name := [84],
    schema := { columns := [{ name := [105, 100],
                              data_type := Wire.MDataType.integer }] } }

/-- Example fixture: a catalog holding the table of `exTableMeta` with the
given stored rows. -/
def exMgr (rows : List (List Wire.MData)) : Db.InMemoryManager :=
  { tables := [([84], exTableMeta)], data := [([84], rows)] }

/-- Witness for C3's amended contract: each conjunct applied at a concrete
catalog (the one-column `Integer` table of `exMgr`). -/
theorem c3_insert_contract_witness :
    Db.InMemoryManager.insert Db.InMemoryManager.new [84] []
      = .err (Wire.DataError.noSuchTable [84]) ∧
    (Db.InMemoryManager.insert (exMgr []) [84] []).isErr ∧
    (Db.InMemoryManager.insert (exMgr []) [84] [Wire.MData.varchar []]).isErr ∧
    (∃ rows, Db.lookupAssoc (exMgr []).data [84] = some rows ∧
      (exMgr [[Wire.MData.integer 7]]).tables = (exMgr []).tables ∧
      (exMgr [[Wire.MData.integer 7]]).data
        = Db.setAssoc (exMgr []).data [84] (rows ++ [[Wire.MData.integer 7]])) :=
  ⟨(c3_insert_contract Db.InMemoryManager.new [84] []).1 rfl,
   (c3_insert_contract (exMgr []) [84] []).2.1 exTableMeta rfl (by decide),
   (c3_insert_contract (exMgr []) [84] [Wire.MData.varchar []]).2.2.1
     exTableMeta 0 _ _ rfl rfl rfl (by decide),
   (c3_insert_contract (exMgr []) [84] [Wire.MData.integer 7]).2.2.2
     (exMgr [[Wire.MData.integer 7]]) (by decide)⟩

/-- C8: after creating a table empty and performing `N` successful inserts
into it, the row storage of the table holds exactly the `N` inserted rows in
insertion order, and `fetch` returns exactly that list (a deep clone of the
stored rows; `fetch` takes the catalog by shared reference and the embedding
is pure, so the stored rows are untouched by fetching). -/
theorem c8_fetch_after_inserts (m m1 m2 : Db.InMemoryManager) (name : RStr)
    (cols : List Wire.Column) (rows : List (List Wire.MData))
    (hcreate : m.create_table name cols = .ok m1)
    (hins : Db.insertAll m1 name rows = .ok m2) :
    Db.lookupAssoc m2.data name = some rows ∧
    m2.fetch name = .ok rows ∧
    (m2.fetch name = .ok rows → Db.cloneRows rows = rows) := by
  obtain ⟨hcols, htab1, hdata1⟩ := Db.create_table_ok_spec m m1 name cols hcreate
  have hempty : Db.lookupAssoc m1.data name = some [] := by
    rw [hdata1, Db.lookupAssoc_setAssoc_self]
  obtain ⟨hrows, htab2⟩ := Db.insertAll_ok_spec name rows m1 m2 [] hempty hins
  simp only [List.nil_append] at hrows
  have hmeta : m2.get_table_meta name
      = .ok { name := name, schema := { columns := cols } } := by
    unfold Db.InMemoryManager.get_table_meta
    rw [htab2, htab1, Db.lookupAssoc_setAssoc_self]
  refine ⟨hrows, ?_, fun _ => Db.cloneRows_eq rows⟩
  unfold Db.InMemoryManager.fetch
  rw [hmeta]
  simp only [RustRes.bind]
  rw [hrows]
  simp only [Db.cloneRows_eq]

/-- Witness for C8: creating the table `[84]` from the empty catalog and
inserting two rows, `fetch` returns exactly those two rows in order. -/
theorem c8_fetch_after_inserts_witness :
    Db.lookupAssoc (exMgr [[Wire.MData.integer 1], [Wire.MData.integer 2]]).data [84]
      = some [[Wire.MData.integer 1], [Wire.MData.integer 2]] ∧
    (exMgr [[Wire.MData.integer 1], [Wire.MData.integer 2]]).fetch [84]
      = .ok [[Wire.MData.integer 1], [Wire.MData.integer 2]] :=
  have h := c8_fetch_after_inserts Db.InMemoryManager.new
    (exMgr []) (exMgr [[Wire.MData.integer 1], [Wire.MData.integer 2]]) [84]
    [{ name := [105, 100], data_type := Wire.MDataType.integer }]
    [[Wire.MData.integer 1], [Wire.MData.integer 2]]
    (by decide) (by decide)
  ⟨h.1, h.2.1⟩

namespace SqlLex

/-! Embedding of the character-level lexer of
`microbat_server/src/sql/lexer.rs` (module `lexing_buffer`) and its token
type from `microbat_server/src/sql/tokens.rs`.  This module uses Lean
`Char`/`String` directly, since the lexer works character by character and
nothing from it crosses the wire. -/

/-- `SourceRef`: a location in the parsed input (1-based). -/
structure SourceRef where
  column : Nat
  line : Nat
  deriving DecidableEq, Repr

/-- `TokenTypes` from `sql/tokens.rs`.  Note that `INTEGER` carries a `u32`
(embedded as `Nat`) in this generation of the code. -/
inductive TokenTypes where
  | SELECT
  | UPDATE
  | INSERT
  | DELETE
  | WHERE
  | FROM
  | SET
  | COMMA
  | DOT
  | LPARENS
  | RPARENS
  | EQ
  | LT
  | GT
  | LTE
  | GTE
  | PLUS
  | IDENTIFIER (s : String)
  | STRING (s : String)
  | INTEGER (v : Nat)
  | TERMINATE
  deriving DecidableEq, Repr

/-- `Token` from `sql/tokens.rs`: a token type with its source position. -/
structure Token where
  token_type : TokenTypes
  source_ref : SourceRef
  deriving DecidableEq, Repr

/-- `LexingErrors`. -/
inductive LexingErrors where
  | StringNotTerminated
  | IllegalCharacter (c : Char)
  deriving DecidableEq, Repr

/-- `LexingError`: an error with its location. -/
structure LexingError where
  msg : LexingErrors
  location : SourceRef
  deriving DecidableEq, Repr

/-- `LexingState`: the lexer's mode.  The `Integer` state is declared in
the source but never entered by `push_char`. -/
inductive LexingState where
  | Normal
  | ForcePop
  | Integer
  | String
  deriving DecidableEq, Repr

/-- `LexBuffer`: the stateful lexing buffer. -/
structure LexBuffer where
  buffer : String
  mode : LexingState
  current_line : Nat
  current_column : Nat
  token_column_marker : Nat
  deriving DecidableEq, Repr

namespace LexBuffer

/-- `LexBuffer::new`. -/
def new : LexBuffer :=
  { buffer := "", mode := .Normal, current_line := 1, current_column := 1,
    token_column_marker := 1 }

/-- `LexBuffer::is_delimiting`.  Rust's `char::is_whitespace` is Unicode
white space; `Char.isWhitespace` covers the ASCII subset, which is identical
on the ASCII characters the lexer lets through outside strings. -/
def is_delimiting (character : Char) : Bool :=
  character.isWhitespace || character = ';' || character = '+' ||
    character = ',' || character = '.' || character = '(' || character = ')' ||
    character = '=' || character = '<' || character = '>'

/-- `LexBuffer::makes_continuity_token`: `<`/`>` followed by `=`. -/
def makes_continuity_token (current peek : Char) : Bool :=
  if peek = '=' then current = '<' || current = '>' else false

/-- `LexBuffer::current_source_marker`. -/
def current_source_marker (b : LexBuffer) : SourceRef :=
  { column := b.token_column_marker, line := b.current_line }

/-- `LexBuffer::create_token_and_reset`: clear the buffer, build the token
at the marked column, then move the marker to the current column. -/
def create_token_and_reset (b : LexBuffer) (token_type : TokenTypes) :
    LexBuffer × Token :=
  ({ b with buffer := "", token_column_marker := b.current_column },
   { token_type := token_type, source_ref := b.current_source_marker })

/-- `LexBuffer::pop_token`: keyword/separator/operator table over the
buffered text; anything else becomes an `IDENTIFIER`.  There is no arm
producing an `INTEGER` token. -/
def pop_token (b : LexBuffer) : LexBuffer × Token :=
  match b.buffer with
  | "select" => b.create_token_and_reset TokenTypes.SELECT
  | "update" => b.create_token_and_reset TokenTypes.UPDATE
  | "insert" => b.create_token_and_reset TokenTypes.INSERT
  | "delete" => b.create_token_and_reset TokenTypes.DELETE
  | "where" => b.create_token_and_reset TokenTypes.WHERE
  | "from" => b.create_token_and_reset TokenTypes.FROM
  | "set" => b.create_token_and_reset TokenTypes.SET
  | "," => b.create_token_and_reset TokenTypes.COMMA
  | "." => b.create_token_and_reset TokenTypes.DOT
  | "(" => b.create_token_and_reset TokenTypes.LPARENS
  | ")" => b.create_token_and_reset TokenTypes.RPARENS
  | "=" => b.create_token_and_reset TokenTypes.EQ
  | "<" => b.create_token_and_reset TokenTypes.LT
  | ">" => b.create_token_and_reset TokenTypes.GT
  | "<=" => b.create_token_and_reset TokenTypes.LTE
  | ">=" => b.create_token_and_reset TokenTypes.GTE
  | "+" => b.create_token_and_reset TokenTypes.PLUS
  | ";" => b.create_token_and_reset TokenTypes.TERMINATE
  | _ => b.create_token_and_reset (TokenTypes.IDENTIFIER b.buffer)

/-- `char::to_ascii_lowercase`. -/
def asciiLower (c : Char) : Char :=
  if 'A' ≤ c ∧ c ≤ 'Z' then Char.ofNat (c.toNat + 32) else c

/-- `LexBuffer::push_char`: advance the column counter, then handle
whitespace, quote toggling, buffering (with the ASCII check and lowercase
folding outside strings), the `ForcePop` mode, and the peek-driven pop
decision, exactly in the source's order. -/
def push_char (b0 : LexBuffer) (current_char : Char) (peek : Option Char) :
    RustRes LexingError (LexBuffer × Option Token) :=
  let b := { b0 with current_column := b0.current_column + 1 }
  if current_char.isWhitespace ∧ b.mode ≠ .String then
    .ok ({ b with token_column_marker := b.token_column_marker + 1 }, none)
  else if current_char = '\'' then
    match b.mode with
    | .String =>
      let b' := { b with mode := .Normal }
      let (b'', t) := b'.create_token_and_reset (TokenTypes.STRING b'.buffer)
      .ok (b'', some t)
    | _ => .ok ({ b with mode := .String }, none)
  else
    let step :=
      if b.mode = .String then .ok { b with buffer := b.buffer.push current_char }
      else if ¬ current_char.toNat < 128 then
        RustRes.err { msg := .IllegalCharacter current_char,
                      location := { line := b.current_line,
                                    column := b.current_column } }
      else .ok { b with buffer := b.buffer.push (asciiLower current_char) }
    RustRes.bind step fun b =>
      if b.mode = .ForcePop then
        let (b', t) := pop_token { b with mode := .Normal }
        .ok (b', some t)
      else
        match peek with
        | some peek_value =>
          if b.mode = .String then .ok (b, none)
          else if makes_continuity_token current_char peek_value then
            .ok ({ b with mode := .ForcePop }, none)
          else if is_delimiting current_char then
            let (b', t) := b.pop_token
            .ok (b', some t)
          else if is_delimiting peek_value then
            let (b', t) := b.pop_token
            .ok (b', some t)
          else .ok (b, none)
        | none =>
          match b.mode with
          | .String =>
            RustRes.err { msg := .StringNotTerminated,
                          location := b.current_source_marker }
          | _ =>
            let (b', t) := b.pop_token
            .ok (b', some t)

end LexBuffer

/-- Driver of `SqlLexer::next` run to completion: feed every character with
its one-character lookahead to `push_char` and collect the produced tokens.
The fuel equals the number of characters plus one, so it never runs out. -/
def lexAllAux : Nat → LexBuffer → List Char → RustRes LexingError (List Token)
  | 0, _, _ => .panicked
  | _ + 1, _, [] => .ok []
  | fuel + 1, b, c :: rest =>
    match LexBuffer.push_char b c rest.head? with
    | .ok (b', none) => lexAllAux fuel b' rest
    | .ok (b', some t) =>
      RustRes.bind (lexAllAux fuel b' rest) fun ts => .ok (t :: ts)
    | .err e => .err e
    | .panicked => .panicked

/-- Lex a whole input string with a fresh `SqlLexer`. -/
def lexAll (s : String) : RustRes LexingError (List Token) :=
  lexAllAux (s.length + 1) LexBuffer.new s.toList

end SqlLex

/-- C7: evaluation of the lexer at the failing input.  The claim states
that a digit starting a token enters the `Integer` lexing state and that the
token is emitted as an `INTEGER` literal, so that `123` lexes to
`INTEGER(123)`.  On the code this is false: `push_char` never enters
`LexingState::Integer` (the variant is declared but unused) and `pop_token`
has no arm producing `TokenTypes::INTEGER`, so the input `123` lexes to the
single token `IDENTIFIER("123")`.  (`TokenTypes::INTEGER` moreover carries a
`u32`, not the claimed `i32`.) -/
theorem c7_digits_lex_to_identifier :
    SqlLex.lexAll "123"
      = .ok [{ token_type := SqlLex.TokenTypes.IDENTIFIER "123",
               source_ref := { column := 1, line := 1 } }] ∧
    SqlLex.TokenTypes.IDENTIFIER "123" ≠ SqlLex.TokenTypes.INTEGER 123 := by
  constructor
  · decide
  · decide

namespace Sql

/-- Modelled from the spec: the token enum consumed by `sql/parser.rs`.  The
lexer module that `sql/parser.rs` imports (a `Lexer` with `with_input`,
`next`, `peek`, `peek_is`, `next_identifier` and this `Token` enum) is not
present under src/ — only its caller `sql/parser.rs` is; `sql/tokens.rs` and
`sql/lexer.rs` hold an older generation without `SHOW`/`TABLES`/`MINUS` or
integer literals.  The enum is reconstructed from §4.2 of the specification
and from the parser's usage: reserved words, separators, operators, literals
(`INTEGER` carrying an `i32`, `IDENTIFIER` and `STRING` carrying text) and
the terminator. -/
inductive Token where
  | SELECT
  | SHOW
  | TABLES
  | UPDATE
  | INSERT
  | DELETE
  | WHERE
  | FROM
  | SET
  | COMMA
  | DOT
  | LPARENS
  | RPARENS
  | EQ
  | LT
  | GT
  | LTE
  | GTE
  | PLUS
  | MINUS
  | STRING (s : RStr)
  | INTEGER (v : Int)
  | IDENTIFIER (s : RStr)
  | TERMINATE
  deriving DecidableEq, Repr

/-- `Token::rbp` from `sql/parser.rs`: right binding powers of the Pratt
parser (`INTEGER`/`RPARENS` 1, `PLUS`/`MINUS` 5, `LPARENS` 50, others 0). -/
def Token.rbp : Token → Nat
  | .INTEGER _ => 1
  | .PLUS => 5
  | .MINUS => 5
  | .LPARENS => 50
  | .RPARENS => 1
  | _ => 0

/-- `Operation` from `sql/expression.rs`. -/
inductive Operation where
  | Plus
  | Minus
  deriving DecidableEq, Repr

/-- The expression tree built by the parser (`sql/expression.rs`):
`LeafExpression<i32>`, `ReferenceExpression`, `NegateExpression` and
`OperationExpression`.  (`AsExpression` is never constructed by the parser
and is not involved in any claim, so it is omitted.) -/
inductive Expr where
  | leaf (v : Int)
  | reference (name : RStr)
  | negate (e : Expr)
  | operation (op : Operation) (left right : Expr)
  deriving DecidableEq, Repr

/-- `ParseErrorKind` from `sql/parser.rs`.  `NoNud`/`NoLed` carry the
offending token (the source formats it into a string with `{:?}`). -/
inductive ParseErrorKind where
  | UnexpectedToken
  | EndOfTokens
  | NoNud (t : Token)
  | NoLed (t : Token)
  deriving DecidableEq, Repr

/-- `SqlClause` from `sql/parser.rs`. -/
inductive SqlClause where
  | showTables
  | select (projection : List Expr) (fromTables : List RStr)
  deriving DecidableEq, Repr

mutual

/-- `nud` from `sql/parser.rs`: consume one token; integers and identifiers
are leaves, `(` parses a subexpression at rbp 0, unary `-` wraps the
subexpression parsed at `MINUS`'s rbp.  The token stream is the remaining
token list; `next()` on an exhausted stream has no definition in the missing
lexer module and is modelled as a panic (no claim reaches it).  The fuel
argument decreases on every mutual call and the wrappers provide more fuel
than a parse can consume. -/
def nud : Nat → List Token → RustRes ParseErrorKind (Expr × List Token)
  | 0, _ => .panicked
  | _ + 1, [] => .panicked
  | fuel + 1, t :: ts =>
    match t with
    | .IDENTIFIER v => .ok (.reference v, ts)
    | .INTEGER v => .ok (.leaf v, ts)
    | .LPARENS => parse_expression fuel 0 ts
    | .MINUS =>
      RustRes.bind (parse_expression fuel (Token.rbp .MINUS) ts) fun r =>
        .ok (.negate r.1, r.2)
    | token => .err (.NoNud token)

/-- `led` from `sql/parser.rs`: `+`/`-` build a binary operation whose right
side is parsed at the operator's rbp; `)` returns the left side unchanged. -/
def led : Nat → Expr → List Token → RustRes ParseErrorKind (Expr × List Token)
  | 0, _, _ => .panicked
  | _ + 1, _, [] => .panicked
  | fuel + 1, left, t :: ts =>
    match t with
    | .PLUS =>
      RustRes.bind (parse_expression fuel (Token.rbp .PLUS) ts) fun r =>
        .ok (.operation .Plus left r.1, r.2)
    | .MINUS =>
      RustRes.bind (parse_expression fuel (Token.rbp .MINUS) ts) fun r =>
        .ok (.operation .Minus left r.1, r.2)
    | .RPARENS => .ok (left, ts)
    | token => .err (.NoLed token)

/-- `parse_expression` from `sql/parser.rs`: `left = nud()`, then the main
Pratt loop. -/
def parse_expression : Nat → Nat → List Token → RustRes ParseErrorKind (Expr × List Token)
  | 0, _, _ => .panicked
  | fuel + 1, rbp, ts =>
    RustRes.bind (nud fuel ts) fun r => parseLoop fuel rbp r.1 r.2

/-- Main loop of `parse_expression`:
`while peek.rbp > rbp { left = led(left) }`, failing with `EndOfTokens` when
the peek finds no token mid-expression. -/
def parseLoop : Nat → Nat → Expr → List Token → RustRes ParseErrorKind (Expr × List Token)
  | 0, _, _, _ => .panicked
  | fuel + 1, rbp, left, ts =>
    match ts with
    | [] => .err .EndOfTokens
    | t :: _ =>
      if rbp < t.rbp then
        RustRes.bind (led fuel left ts) fun r => parseLoop fuel rbp r.1 r.2
      else .ok (left, ts)

end

/-- Projection loop of `parse_sql`'s `SELECT` arm: parse one expression,
then while the peeked token is a comma, consume it and parse another. -/
def parseExprsLoop : Nat → List Token → RustRes ParseErrorKind (List Expr × List Token)
  | 0, _ => .panicked
  | fuel + 1, ts =>
    RustRes.bind (parse_expression fuel 0 ts) fun r =>
      match r.2 with
      | .COMMA :: rest =>
        RustRes.bind (parseExprsLoop fuel rest) fun rr => .ok (r.1 :: rr.1, rr.2)
      | other => .ok ([r.1], other)

/-- Modelled from the spec: `Lexer::next_identifier`, a method of the
missing lexer module used once by `parse_sql`; it must yield the next
token's identifier text or fail the parse. -/
def next_identifier : List Token → RustRes ParseErrorKind (RStr × List Token)
  | .IDENTIFIER name :: rest => .ok (name, rest)
  | _ :: _ => .err .UnexpectedToken
  | [] => .panicked

/-- From-list loop of `parse_sql`: while the peeked token is a comma,
consume it and require an identifier. -/
def parseFromLoop : Nat → List Token → RustRes ParseErrorKind (List RStr × List Token)
  | 0, _ => .panicked
  | fuel + 1, ts =>
    match ts with
    | .COMMA :: rest =>
      match rest with
      | .IDENTIFIER name :: rest' =>
        RustRes.bind (parseFromLoop fuel rest') fun rr => .ok (name :: rr.1, rr.2)
      | _ :: _ => .err .UnexpectedToken
      | [] => .panicked
    | other => .ok ([], other)

/-- `parse_sql` from `sql/parser.rs`: `SHOW TABLES`, or `SELECT` with a
comma-separated projection and an optional `FROM` identifier list; a
trailing `;` is not consumed.  Any other leading token is an
`UnexpectedToken` error. -/
def parse_sql (fuel : Nat) (ts : List Token) : RustRes ParseErrorKind SqlClause :=
  match ts with
  | [] => .panicked
  | .SHOW :: rest =>
    match rest with
    | .TABLES :: _ => .ok .showTables
    | _ :: _ => .err .UnexpectedToken
    | [] => .panicked
  | .SELECT :: rest =>
    RustRes.bind (parseExprsLoop fuel rest) fun r =>
      match r.2 with
      | .FROM :: rest2 =>
        RustRes.bind (next_identifier rest2) fun ri =>
          RustRes.bind (parseFromLoop fuel ri.2) fun rf =>
            .ok (.select r.1 (ri.1 :: rf.1))
      | _ => .ok (.select r.1 [])
  | _ :: _ => .err .UnexpectedToken

end Sql

namespace Sql

/-- `EvaluationError` from `sql/expression.rs`; `noRowContext` belongs to
the spec-modelled `evalNoCtx` below. -/
inductive EvaluationError where
  | noSuchColumn (name : RStr)
  | dataError (e : Wire.DataError)
  | noRowContext (name : RStr)
  deriving DecidableEq, Repr

/-- Lift a `DataError` into an `EvaluationError`
(`impl From<DataError> for EvaluationError`). -/
def liftData {α : Type} : RustRes Wire.DataError α → RustRes EvaluationError α
  | .ok a => .ok a
  | .err e => .err (.dataError e)
  | .panicked => .panicked

/-- ASCII uppercase folding of one UTF-8 byte; models `str::to_uppercase`
on the ASCII identifiers the system produces (multi-byte Unicode uppercasing
is not modelled and not exercised by any claim). -/
def upperBytes (s : RStr) : RStr :=
  s.map fun b => if 97 ≤ b ∧ b ≤ 122 then b - 32 else b

/-- `Expression::eval(schema, row)` from `sql/expression.rs`, by structural
pattern match: a leaf yields its integer; a reference finds the position of
the column whose uppercased name equals the reference and unwraps
`row.get(index)` (a panic if the row is shorter than the schema); negation
is only defined on integers (`todo!()`, i.e. a panic, on null and varchar);
a binary operation applies `apply_plus`/`apply_minus`. -/
def Expr.eval (schema : Db.TableSchema) (row : List Wire.MData) :
    Expr → RustRes EvaluationError Wire.MData
  | .leaf v => .ok (.integer v)
  | .reference name =>
    match schema.columns.findIdx? (fun r => upperBytes r.name = name) with
    | some index =>
      match row.get? index with
      | some v => .ok v
      | none => .panicked
    | none => .err (.noSuchColumn name)
  | .negate e =>
    RustRes.bind (Expr.eval schema row e) fun val =>
      match val with
      | .null => .panicked
      | .integer v => .ok (.integer (Wire.wrap32 (-v)))
      | .varchar _ => .panicked
  | .operation op l r =>
    RustRes.bind (Expr.eval schema row l) fun lv =>
      RustRes.bind (Expr.eval schema row r) fun rv =>
        match op with
        | .Plus => liftData (lv.apply_plus rv)
        | .Minus => liftData (lv.apply_minus rv)

/-- Modelled from the spec: the parameterless `Expression::eval()` that
`db/mod.rs` calls belongs to a generation of the expression module that is
not under src/ (the src version takes `(schema, row)`).  Literals, negation
and operations do not consult the row and evaluate as in the src version; a
column reference cannot be resolved without a row and is modelled as an
evaluation error (`execute_sql` panics on every `Err`, just as it panics on
the non-integer value a resolved reference could yield). -/
def Expr.evalNoCtx : Expr → RustRes EvaluationError Wire.MData
  | .leaf v => .ok (.integer v)
  | .reference name => .err (.noRowContext name)
  | .negate e =>
    RustRes.bind (Expr.evalNoCtx e) fun val =>
      match val with
      | .null => .panicked
      | .integer v => .ok (.integer (Wire.wrap32 (-v)))
      | .varchar _ => .panicked
  | .operation op l r =>
    RustRes.bind (Expr.evalNoCtx l) fun lv =>
      RustRes.bind (Expr.evalNoCtx r) fun rv =>
        match op with
        | .Plus => liftData (lv.apply_plus rv)
        | .Minus => liftData (lv.apply_minus rv)

end Sql

namespace Db

/-- `InMemoryManager::get_tables`: the key list of the table map. -/
def InMemoryManager.get_tables (m : InMemoryManager) :
    RustRes Wire.DataError (List RStr) :=
  .ok (m.tables.map fun kv => kv.1)

/-- `MicrobatQueryError` from `db/mod.rs` with its `From` conversions. -/
inductive MicrobatQueryError where
  | parse (e : Sql.ParseErrorKind)
  | data (e : Wire.DataError)
  deriving DecidableEq, Repr

/-- `QueryResult` from `db/mod.rs`. -/
inductive QueryResult where
  | table (d : Wire.DataDescription) (rows : List Wire.DataRow)
  deriving DecidableEq, Repr

/-- Decimal ASCII digits of a natural number, as produced by
`usize::to_string` (the fuel argument only bounds the digit count). -/
def decAsciiAux : Nat → Nat → List Nat
  | 0, _ => []
  | fuel + 1, n => if n < 10 then [48 + n] else decAsciiAux fuel (n / 10) ++ [48 + n % 10]

/-- Decimal ASCII digits of `n`. -/
def decAscii (n : Nat) : RStr := decAsciiAux (n + 1) n

/-- Bytes of the result-column name `"column_<index>"` built by the `Select`
arm of `execute_sql` (`[99, 111, 108, 117, 109, 110, 95]` is `"column_"`). -/
def columnName (index : Nat) : RStr := [99, 111, 108, 117, 109, 110, 95] ++ decAscii index

/-- Bytes of `"table"`, the single column name of the `SHOW TABLES`
result. -/
def tableColName : RStr := [116, 97, 98, 108, 101]

/-- Inner projection loop of the `Select` arm of `execute_sql`: for each
expression (with its index) evaluate `expr.eval()`; an `Integer` result
contributes a `column_<index>` column and the value, anything else —
a non-integer value or an evaluation error — hits a `panic!()`. -/
def projLoop (index : Nat) :
    List Sql.Expr → RustRes MicrobatQueryError (List Wire.Column × List Wire.MData)
  | [] => .ok ([], [])
  | expr :: rest =>
    match expr.evalNoCtx with
    | .ok (.integer v) =>
      RustRes.bind (projLoop (index + 1) rest) fun r =>
        .ok ({ name := columnName index, data_type := Wire.MDataType.integer } :: r.1,
             Wire.MData.integer v :: r.2)
    | .ok _ => .panicked
    | .err _ => .panicked
    | .panicked => .panicked

/-- Outer row loop of the `Select` arm: the source pushes into one shared
`columns` vector and one shared flat `data_rows` vector for every base row,
which is the row-ordered concatenation of the per-row results. -/
def rowsLoop (projection : List Sql.Expr) :
    List (List Wire.MData) → RustRes MicrobatQueryError (List Wire.Column × List Wire.MData)
  | [] => .ok ([], [])
  | _row :: rest =>
    RustRes.bind (projLoop 0 projection) fun r1 =>
      RustRes.bind (rowsLoop projection rest) fun r2 =>
        .ok (r1.1 ++ r2.1, r1.2 ++ r2.2)

/-- `execute_sql` from `db/mod.rs` (on an already-lexed token stream; the
lexer generation feeding this parser is absent from src/, see
`Sql.Token`).  `ShowTables` answers one `Varchar` table-name row per
catalog table.  `Select` unwraps `from.get(0)` — a panic when the parsed
from-list is empty — fetches that table, runs the evaluation loops, and
returns a single flat `DataRow` together with the per-row-duplicated column
list. -/
def execute_sql (manager : InMemoryManager) (fuel : Nat) (ts : List Sql.Token) :
    RustRes MicrobatQueryError QueryResult :=
  match Sql.parse_sql fuel ts with
  | .err e => .err (.parse e)
  | .panicked => .panicked
  | .ok .showTables =>
    match manager.get_tables with
    | .ok tables =>
      .ok (.table
        { columns := [{ name := tableColName, data_type := Wire.MDataType.varchar }] }
        (tables.map fun t => { columns := [Wire.MData.varchar t] }))
    | .err e => .err (.data e)
    | .panicked => .panicked
  | .ok (.select projection fromTables) =>
    match fromTables.head? with
    | none => .panicked
    | some t =>
      match manager.fetch t with
      | .err e => .err (.data e)
      | .panicked => .panicked
      | .ok table =>
        match rowsLoop projection table with
        | .ok r => .ok (.table { columns := r.1 } [{ columns := r.2 }])
        | .err e => .err e
        | .panicked => .panicked

/-- Placeholder for the human-readable `msg` string of a query error: the
`ERROR` frame carries `err.msg`, whose exact text no claim depends on; the
embedding does not model the `format!` rendering. -/
def queryErrorMsg : MicrobatQueryError → RStr
  | _ => []

/-- The `Query` arm of `handle_connection` from `connect/mod.rs`: the frames
written for one accepted `QUERY`.  On `Ok`, a `DataDescription` frame, one
`DataRow` frame per result row, then `Ready`; on `Err`, an `Error` frame
then `Ready`; when `execute_sql` panics the worker thread dies before any
frame is written, yielding `none`. -/
def handleQuery (manager : InMemoryManager) (fuel : Nat) (ts : List Sql.Token) :
    Option (List Wire.MicrobatServerMessage) :=
  match execute_sql manager fuel ts with
  | .ok (.table description data) =>
    some (Wire.MicrobatServerMessage.dataDescription description ::
      (data.map Wire.MicrobatServerMessage.dataRow ++ [Wire.MicrobatServerMessage.ready]))
  | .err e =>
    some [Wire.MicrobatServerMessage.error (queryErrorMsg e),
          Wire.MicrobatServerMessage.ready]
  | .panicked => none

end Db

/-- C10: evaluation of `execute_sql` at the failing input.  The parser
accepts `select 1;` (the `FROM` clause is optional) and produces a `Select`
with an empty from-list, but the `Select` arm of `execute_sql` evaluates
`from.get(0).unwrap()` before anything else, which panics on the empty
list; the claim that the access is defined and `execute_sql` returns a
result or error without panicking is false. -/
theorem c10_select_without_from_panics :
    Sql.parse_sql 100
        [Sql.Token.SELECT, Sql.Token.INTEGER 1, Sql.Token.TERMINATE]
      = .ok (.select [.leaf 1] []) ∧
    Db.execute_sql Db.InMemoryManager.new 100
        [Sql.Token.SELECT, Sql.Token.INTEGER 1, Sql.Token.TERMINATE]
      = .panicked := by
  constructor
  · decide
  · decide

/-- C2: evaluation of the `SELECT ... FROM` path at the failing input.  On
the catalog of `exMgr` holding two base rows, the query
`select 1 from t` makes the server write a `DATA_DESCRIPTION` frame listing
the single projected column TWICE (once per base row), then exactly ONE
`DATA_ROW` frame carrying both rows' evaluated values flattened together,
then `READY` — not a description listing each projected column once followed
by one `DATA_ROW` per base row: the `Select` arm of `execute_sql` pushes
into one shared `columns` vector and one flat `data_rows` vector inside the
row loop and wraps the latter in a single `DataRow`. -/
theorem c2_select_emits_one_flat_datarow :
    Db.handleQuery (exMgr [[Wire.MData.integer 10], [Wire.MData.integer 20]]) 100
        [Sql.Token.SELECT, Sql.Token.INTEGER 1, Sql.Token.FROM,
         Sql.Token.IDENTIFIER [84], Sql.Token.TERMINATE]
      = some
        [Wire.MicrobatServerMessage.dataDescription
          { columns :=
            [{ name := Db.columnName 0, data_type := Wire.MDataType.integer },
             { name := Db.columnName 0, data_type := Wire.MDataType.integer }] },
         Wire.MicrobatServerMessage.dataRow
           { columns := [Wire.MData.integer 1, Wire.MData.integer 1] },
         Wire.MicrobatServerMessage.ready] ∧
    Db.lookupAssoc (exMgr [[Wire.MData.integer 10], [Wire.MData.integer 20]]).data [84]
      = some [[Wire.MData.integer 10], [Wire.MData.integer 20]] ∧
    [[Wire.MData.integer 10], [Wire.MData.integer 20]].length = 2 := by
  refine ⟨by decide, by decide, rfl⟩

/-- Frames of a handler outcome that were actually written to the stream: a
handler that panicked died before writing anything. -/
def writtenFrames (o : Option (List Wire.MicrobatServerMessage)) :
    List Wire.MicrobatServerMessage :=
  o.getD []

/-- Whether a server frame is `READY`. -/
def isReadyFrame : Wire.MicrobatServerMessage → Bool
  | .ready => true
  | _ => false

/-- Number of `READY` frames in a frame list. -/
def countReady (fs : List Wire.MicrobatServerMessage) : Nat :=
  (fs.filter isReadyFrame).length

/-- C6 counterexample: the accepted query `select 1;` is answered with ZERO
`READY` frames, not exactly one — `execute_sql` panics on the empty
from-list (see C10) before the handler writes anything, so the connection
dies with no frames at all. -/
theorem c6_no_ready_after_panicking_query :
    countReady (writtenFrames (Db.handleQuery Db.InMemoryManager.new 100
        [Sql.Token.SELECT, Sql.Token.INTEGER 1, Sql.Token.TERMINATE])) = 0 ∧
    (0 : Nat) ≠ 1 := by
  constructor
  · decide
  · decide

theorem countReady_map_dataRow (rows : List Wire.DataRow) :
    countReady (rows.map Wire.MicrobatServerMessage.dataRow) = 0 := by
  induction rows with
  | nil => rfl
  | cons r rest ih =>
    simp only [List.map_cons]
    simp [countReady, isReadyFrame, List.filter] at ih ⊢

/-- C6 as amended: for every accepted `QUERY` whose execution returns — a
result or a query error alike — the frames written in response end with
exactly one `READY`; only a panicking execution (such as `select 1;`, see
the counterexample) escapes the barrier, writing no frames at all. -/
theorem c6_ready_barrier (m : Db.InMemoryManager) (fuel : Nat)
    (ts : List Sql.Token) (fs : List Wire.MicrobatServerMessage)
    (h : Db.handleQuery m fuel ts = some fs) :
    countReady fs = 1 ∧ fs.getLast? = some Wire.MicrobatServerMessage.ready := by
  unfold Db.handleQuery at h
  cases hex : Db.execute_sql m fuel ts with
  | ok q =>
    obtain ⟨d, rows⟩ := q
    rw [hex] at h
    simp only [Option.some.injEq] at h
    subst h
    constructor
    · simp [countReady, isReadyFrame, List.filter, List.filter_append,
        show (List.filter isReadyFrame (rows.map Wire.MicrobatServerMessage.dataRow)).length = 0
          from countReady_map_dataRow rows]
    · rw [show Wire.MicrobatServerMessage.dataDescription d ::
            (rows.map Wire.MicrobatServerMessage.dataRow ++ [Wire.MicrobatServerMessage.ready])
          = (Wire.MicrobatServerMessage.dataDescription d ::
              rows.map Wire.MicrobatServerMessage.dataRow) ++ [Wire.MicrobatServerMessage.ready]
          from by simp]
      exact List.getLast?_concat _
  | err e =>
    rw [hex] at h
    simp only [Option.some.injEq] at h
    subst h
    constructor
    · rfl
    · rfl
  | panicked =>
    rw [hex] at h
    exact absurd h (by simp)

/-- Witness for C6's amended barrier: the frames answering `SHOW TABLES;` on
the empty catalog contain exactly one `READY` and end with it. -/
theorem c6_ready_barrier_witness :
    countReady
        [Wire.MicrobatServerMessage.dataDescription
          { columns := [{ name := Db.tableColName,
                          data_type := Wire.MDataType.varchar }] },
         Wire.MicrobatServerMessage.ready] = 1 ∧
    ([Wire.MicrobatServerMessage.dataDescription
        { columns := [{ name := Db.tableColName,
                        data_type := Wire.MDataType.varchar }] },
      Wire.MicrobatServerMessage.ready].getLast?
      = some Wire.MicrobatServerMessage.ready) :=
  c6_ready_barrier Db.InMemoryManager.new 100
    [Sql.Token.SHOW, Sql.Token.TABLES, Sql.Token.TERMINATE] _ (by decide)

namespace Sql

/-!
Reference grammar for C4.  These definitions follow the specification's
words, not the source (they are the spec side of a refinement statement):
the parenthesis-free fragment of the arithmetic subset is generated by
`E := T (('+'|'-') T)*`, `T := '-' T | INTEGER`, with `+`/`-`
left-associative, unary minus binding tighter, and standard (mathematical)
integer semantics.
-/

/-- A parenthesis-free term: an integer literal or a unary minus
(`T := '-' T | INTEGER`). -/
inductive PFTerm where
  | lit (n : Int)
  | neg (t : PFTerm)
  deriving DecidableEq, Repr

/-- A parenthesis-free phrase: a head term followed by a chain of binary
`+`/`-` applications, left-associative by construction
(`E := T (('+'|'-') T)*`). -/
structure PFExpr where
  head : PFTerm
  tail : List (Operation × PFTerm)
  deriving DecidableEq, Repr

/-- Token string of a term. -/
def PFTerm.toks : PFTerm → List Token
  | .lit n => [.INTEGER n]
  | .neg t => .MINUS :: t.toks

/-- The token of a binary operator. -/
def opTok : Operation → Token
  | .Plus => .PLUS
  | .Minus => .MINUS

/-- Token string of an operator/term chain. -/
def tailToks : List (Operation × PFTerm) → List Token
  | [] => []
  | (op, t) :: ps => opTok op :: (t.toks ++ tailToks ps)

/-- Token string of a phrase. -/
def PFExpr.toks (e : PFExpr) : List Token := e.head.toks ++ tailToks e.tail

/-- The expression tree a standard parse of a term produces: negation wraps
its operand, so unary minus binds tighter than any binary operator. -/
def PFTerm.ast : PFTerm → Expr
  | .lit n => .leaf n
  | .neg t => .negate t.ast

/-- Left-associative folding of a chain onto an accumulated left tree. -/
def foldAst (left : Expr) : List (Operation × PFTerm) → Expr
  | [] => left
  | (op, t) :: ps => foldAst (.operation op left t.ast) ps

/-- The standard left-associative expression tree of a phrase. -/
def PFExpr.ast (e : PFExpr) : Expr := foldAst e.head.ast e.tail

/-- Standard (mathematical) integer semantics of a term. -/
def PFTerm.sem : PFTerm → Int
  | .lit n => n
  | .neg t => - t.sem

/-- One standard binary step. -/
def opApply (acc : Int) (op : Operation) (v : Int) : Int :=
  match op with
  | .Plus => acc + v
  | .Minus => acc - v

/-- Standard left-associative folding of the chain's values. -/
def foldSem (acc : Int) : List (Operation × PFTerm) → Int
  | [] => acc
  | (op, t) :: ps => foldSem (opApply acc op t.sem) ps

/-- Standard semantics of a phrase. -/
def PFExpr.sem (e : PFExpr) : Int := foldSem e.head.sem e.tail

/-- `i32` two's-complement range. -/
def i32range (z : Int) : Prop := -2147483648 ≤ z ∧ z < 2147483648

/-- All intermediate values of a term stay in `i32` range (so the `i32`
arithmetic of the evaluator agrees with the standard semantics). -/
def PFTerm.inRange : PFTerm → Prop
  | .lit _ => True
  | .neg t => t.inRange ∧ i32range (- t.sem)

/-- All intermediate values of a chain starting from `acc` stay in `i32`
range. -/
def tailInRange : Int → List (Operation × PFTerm) → Prop
  | _, [] => True
  | acc, (op, t) :: ps =>
    t.inRange ∧ i32range (opApply acc op t.sem) ∧ tailInRange (opApply acc op t.sem) ps

/-- All intermediate values of a phrase stay in `i32` range. -/
def PFExpr.inRange (e : PFExpr) : Prop :=
  e.head.inRange ∧ tailInRange e.head.sem e.tail

theorem evalNoCtx_term (t : PFTerm) (h : t.inRange) :
    t.ast.evalNoCtx = .ok (.integer t.sem) := by
  induction t with
  | lit n => rfl
  | neg t ih =>
    obtain ⟨h1, h2⟩ := h
    show RustRes.bind t.ast.evalNoCtx _ = _
    rw [ih h1]
    show RustRes.ok (Wire.MData.integer (Wire.wrap32 (- t.sem))) = _
    rw [Wire.wrap32_eq_self h2.1 h2.2]
    rfl

theorem evalNoCtx_foldAst (ps : List (Operation × PFTerm)) :
    ∀ (left : Expr) (acc : Int), left.evalNoCtx = .ok (.integer acc) →
      tailInRange acc ps →
      (foldAst left ps).evalNoCtx = .ok (.integer (foldSem acc ps)) := by
  induction ps with
  | nil =>
    intro left acc hleft _
    simpa [foldAst, foldSem] using hleft
  | cons p ps ih =>
    obtain ⟨op, t⟩ := p
    intro left acc hleft hrange
    obtain ⟨ht, hstep, hrest⟩ := hrange
    rw [show foldAst left ((op, t) :: ps) = foldAst (.operation op left t.ast) ps from rfl,
      show foldSem acc ((op, t) :: ps) = foldSem (opApply acc op t.sem) ps from rfl]
    refine ih _ _ ?_ hrest
    show RustRes.bind left.evalNoCtx _ = _
    rw [hleft]
    show RustRes.bind t.ast.evalNoCtx _ = _
    rw [evalNoCtx_term t ht]
    cases op with
    | Plus =>
      show liftData ((Wire.MData.integer acc).apply_plus (.integer t.sem)) = _
      show RustRes.ok (Wire.MData.integer (Wire.wrap32 (acc + t.sem))) = _
      rw [show Wire.wrap32 (acc + t.sem) = opApply acc .Plus t.sem from
        Wire.wrap32_eq_self hstep.1 hstep.2]
    | Minus =>
      show liftData ((Wire.MData.integer acc).apply_minus (.integer t.sem)) = _
      show RustRes.ok (Wire.MData.integer (Wire.wrap32 (acc - t.sem))) = _
      rw [show Wire.wrap32 (acc - t.sem) = opApply acc .Minus t.sem from
        Wire.wrap32_eq_self hstep.1 hstep.2]

theorem evalNoCtx_phrase (e : PFExpr) (h : e.inRange) :
    e.ast.evalNoCtx = .ok (.integer e.sem) :=
  evalNoCtx_foldAst e.tail e.head.ast e.head.sem
    (evalNoCtx_term e.head h.1) h.2

end Sql

namespace Sql

/-- The continuation is non-empty and its first token's rbp is at most `k`
(so the Pratt loop at binding power `k` stops there without error). -/
def headRbpLe (k : Nat) : List Token → Prop
  | [] => False
  | t :: _ => t.rbp ≤ k

theorem headRbpLe_tail (ps : List (Operation × PFTerm)) (rest : List Token)
    (h : headRbpLe 0 rest) : headRbpLe 5 (tailToks ps ++ rest) := by
  cases ps with
  | nil =>
    cases rest with
    | nil => exact h.elim
    | cons r rs =>
      show r.rbp ≤ 5
      have : r.rbp ≤ 0 := h
      omega
  | cons p ps =>
    obtain ⟨op, t⟩ := p
    cases op with
    | Plus => exact le_refl 5
    | Minus => exact le_refl 5

theorem parseLoop_exit (rbp : Nat) (left : Expr) (rest : List Token) (f : Nat)
    (h : headRbpLe rbp rest) (hf : 1 ≤ f) :
    parseLoop f rbp left rest = .ok (left, rest) := by
  obtain ⟨g, rfl⟩ : ∃ g, f = g + 1 := ⟨f - 1, by omega⟩
  cases rest with
  | nil => exact h.elim
  | cons t ts =>
    have ht : t.rbp ≤ rbp := h
    show (if rbp < t.rbp then _ else _) = _
    rw [if_neg (by omega)]

theorem parseLoop_step (g rbp : Nat) (left : Expr) (t : Token) (ts : List Token)
    (h : rbp < t.rbp) :
    parseLoop (g + 1) rbp left (t :: ts)
      = RustRes.bind (led g left (t :: ts)) (fun r => parseLoop g rbp r.1 r.2) := by
  show (if rbp < t.rbp then _ else _) = _
  rw [if_pos h]

theorem pe_step (g rbp : Nat) (ts : List Token) (r : Expr × List Token)
    (hn : nud g ts = .ok r) :
    parse_expression (g + 1) rbp ts = parseLoop g rbp r.1 r.2 := by
  show RustRes.bind (nud g ts) _ = _
  rw [hn]
  rfl

theorem nud_term (t : PFTerm) :
    ∀ (rest : List Token) (f : Nat), headRbpLe 5 rest →
      3 * t.toks.length + 1 ≤ f → nud f (t.toks ++ rest) = .ok (t.ast, rest) := by
  induction t with
  | lit n =>
    intro rest f _ hf
    obtain ⟨g, rfl⟩ : ∃ g, f = g + 1 := ⟨f - 1, by omega⟩
    rfl
  | neg t ih =>
    intro rest f h hf
    have hlen : (PFTerm.neg t).toks.length = t.toks.length + 1 := by
      simp [PFTerm.toks]
    rw [hlen] at hf
    obtain ⟨g, rfl⟩ : ∃ g, f = g + 1 := ⟨f - 1, by omega⟩
    obtain ⟨g', rfl⟩ : ∃ g', g = g' + 1 := ⟨g - 1, by omega⟩
    have hpe : parse_expression (g' + 1) 5 (t.toks ++ rest) = .ok (t.ast, rest) := by
      rw [pe_step g' 5 (t.toks ++ rest) (t.ast, rest) (ih rest g' h (by omega))]
      exact parseLoop_exit 5 t.ast rest g' h (by omega)
    calc nud (g' + 1 + 1) (PFTerm.toks (PFTerm.neg t) ++ rest)
        = RustRes.bind (parse_expression (g' + 1) 5 (t.toks ++ rest))
            (fun r => .ok (.negate r.1, r.2)) := rfl
      _ = .ok ((PFTerm.neg t).ast, rest) := by rw [hpe]; rfl

theorem pe_term (t : PFTerm) (rest : List Token) (f : Nat) (h : headRbpLe 5 rest)
    (hf : 3 * t.toks.length + 2 ≤ f) :
    parse_expression f 5 (t.toks ++ rest) = .ok (t.ast, rest) := by
  obtain ⟨g, rfl⟩ : ∃ g, f = g + 1 := ⟨f - 1, by omega⟩
  rw [pe_step g 5 (t.toks ++ rest) (t.ast, rest) (nud_term t rest g h (by omega))]
  exact parseLoop_exit 5 t.ast rest g h (by omega)

theorem parseLoop_tail (ps : List (Operation × PFTerm)) :
    ∀ (left : Expr) (rest : List Token) (f : Nat), headRbpLe 0 rest →
      3 * (tailToks ps).length + 1 ≤ f →
      parseLoop f 0 left (tailToks ps ++ rest) = .ok (foldAst left ps, rest) := by
  induction ps with
  | nil =>
    intro left rest f h hf
    exact parseLoop_exit 0 left rest f h (by omega)
  | cons p ps ih =>
    obtain ⟨op, t⟩ := p
    intro left rest f h hf
    have hlen : (tailToks ((op, t) :: ps)).length
        = 1 + t.toks.length + (tailToks ps).length := by
      simp [tailToks]
      omega
    rw [hlen] at hf
    obtain ⟨g, rfl⟩ : ∃ g, f = g + 1 := ⟨f - 1, by omega⟩
    obtain ⟨g', rfl⟩ : ∃ g', g = g' + 1 := ⟨g - 1, by omega⟩
    have hrest5 : headRbpLe 5 (tailToks ps ++ rest) := headRbpLe_tail ps rest h
    have hpe : parse_expression g' 5 (t.toks ++ (tailToks ps ++ rest))
        = .ok (t.ast, tailToks ps ++ rest) :=
      pe_term t (tailToks ps ++ rest) g' hrest5 (by omega)
    have harr : tailToks ((op, t) :: ps) ++ rest
        = opTok op :: (t.toks ++ (tailToks ps ++ rest)) := by
      simp [tailToks]
    rw [harr]
    cases op with
    | Plus =>
      simp only [opTok]
      rw [parseLoop_step (g' + 1) 0 left Token.PLUS _
        (by norm_num [Token.rbp])]
      have hled : led (g' + 1) left (Token.PLUS :: (t.toks ++ (tailToks ps ++ rest)))
          = (.ok (.operation .Plus left t.ast, tailToks ps ++ rest)
              : RustRes ParseErrorKind (Expr × List Token)) := by
        calc led (g' + 1) left (Token.PLUS :: (t.toks ++ (tailToks ps ++ rest)))
            = RustRes.bind (parse_expression g' 5 (t.toks ++ (tailToks ps ++ rest)))
                (fun r => .ok (.operation .Plus left r.1, r.2)) := rfl
          _ = .ok (.operation .Plus left t.ast, tailToks ps ++ rest) := by
              rw [hpe]
              rfl
      rw [hled]
      simp only [RustRes.bind]
      rw [ih (.operation .Plus left t.ast) rest (g' + 1) h (by omega)]
      rfl
    | Minus =>
      simp only [opTok]
      rw [parseLoop_step (g' + 1) 0 left Token.MINUS _
        (by norm_num [Token.rbp])]
      have hled : led (g' + 1) left (Token.MINUS :: (t.toks ++ (tailToks ps ++ rest)))
          = (.ok (.operation .Minus left t.ast, tailToks ps ++ rest)
              : RustRes ParseErrorKind (Expr × List Token)) := by
        calc led (g' + 1) left (Token.MINUS :: (t.toks ++ (tailToks ps ++ rest)))
            = RustRes.bind (parse_expression g' 5 (t.toks ++ (tailToks ps ++ rest)))
                (fun r => .ok (.operation .Minus left r.1, r.2)) := rfl
          _ = .ok (.operation .Minus left t.ast, tailToks ps ++ rest) := by
              rw [hpe]
              rfl
      rw [hled]
      simp only [RustRes.bind]
      rw [ih (.operation .Minus left t.ast) rest (g' + 1) h (by omega)]
      rfl

theorem pe_phrase (E : PFExpr) (rest : List Token) (f : Nat)
    (h : headRbpLe 0 rest) (hf : 3 * E.toks.length + 2 ≤ f) :
    parse_expression f 0 (E.toks ++ rest) = .ok (E.ast, rest) := by
  obtain ⟨head, tail⟩ := E
  have hlen : (PFExpr.toks ⟨head, tail⟩).length
      = head.toks.length + (tailToks tail).length := by
    simp [PFExpr.toks]
  rw [hlen] at hf
  obtain ⟨g, rfl⟩ : ∃ g, f = g + 1 := ⟨f - 1, by omega⟩
  have harr : PFExpr.toks ⟨head, tail⟩ ++ rest
      = head.toks ++ (tailToks tail ++ rest) := by
    simp [PFExpr.toks]
  rw [harr]
  have hrest5 : headRbpLe 5 (tailToks tail ++ rest) := headRbpLe_tail tail rest h
  rw [pe_step g 0 (head.toks ++ (tailToks tail ++ rest)) (head.ast, tailToks tail ++ rest)
    (nud_term head (tailToks tail ++ rest) g hrest5 (by omega))]
  exact parseLoop_tail tail head.ast rest g h (by omega)

end Sql

/-- C4 counterexample: parentheses do not override precedence in general.
Parsing `select 1 - (2) + 3;` yields the tree `1 - ((2) + 3)` — the `led`
for `RPARENS` returns the group but the surrounding loop keeps consuming, so
the parenthesized operand absorbs the following `+ 3` — which evaluates to
`Integer(-4)`, whereas the claimed standard left-associative semantics give
`(1 - 2) + 3 = 2`. -/
theorem c4_paren_group_absorbs_operator :
    Sql.parse_sql 100
        [Sql.Token.SELECT, Sql.Token.INTEGER 1, Sql.Token.MINUS,
         Sql.Token.LPARENS, Sql.Token.INTEGER 2, Sql.Token.RPARENS,
         Sql.Token.PLUS, Sql.Token.INTEGER 3, Sql.Token.TERMINATE]
      = .ok (.select
          [.operation .Minus (.leaf 1) (.operation .Plus (.leaf 2) (.leaf 3))]
          []) ∧
    Sql.Expr.evalNoCtx
        (.operation .Minus (.leaf 1) (.operation .Plus (.leaf 2) (.leaf 3)))
      = .ok (.integer (-4)) ∧
    (-4 : Int) ≠ 2 := by
  refine ⟨by decide, by decide, by decide⟩

/-- C4 as amended: every PARENTHESIS-FREE expression of the arithmetic
subset (integer literals, unary minus, binary `+` and `-`) parses to exactly
the standard tree — `+`/`-` left-associative, unary minus binding tighter —
and (whenever every intermediate value stays in `i32` range) evaluates to
the standard integer semantics; and the particular parenthesized statement
`select 1 + (5 - 2);` parses and evaluates to the single projection value
`Integer(4)`.  (Parenthesized operands followed by further operators do not
obey standard precedence; see the counterexample.) -/
theorem c4_arithmetic_subset :
    (∀ (E : Sql.PFExpr) (rest : List Sql.Token) (f : Nat),
      Sql.headRbpLe 0 rest → 3 * (Sql.PFExpr.toks E).length + 2 ≤ f →
      Sql.parse_expression f 0 (Sql.PFExpr.toks E ++ rest)
          = .ok (Sql.PFExpr.ast E, rest) ∧
        (Sql.PFExpr.inRange E →
          Sql.Expr.evalNoCtx (Sql.PFExpr.ast E)
            = .ok (Wire.MData.integer (Sql.PFExpr.sem E)))) ∧
    (Sql.parse_sql 100
        [Sql.Token.SELECT, Sql.Token.INTEGER 1, Sql.Token.PLUS,
         Sql.Token.LPARENS, Sql.Token.INTEGER 5, Sql.Token.MINUS,
         Sql.Token.INTEGER 2, Sql.Token.RPARENS, Sql.Token.TERMINATE]
      = .ok (.select
          [.operation .Plus (.leaf 1) (.operation .Minus (.leaf 5) (.leaf 2))]
          []) ∧
     Sql.Expr.evalNoCtx
        (.operation .Plus (.leaf 1) (.operation .Minus (.leaf 5) (.leaf 2)))
      = .ok (.integer 4) ∧
     ∀ (schema : Db.TableSchema) (row : List Wire.MData),
       Sql.Expr.eval schema row
          (.operation .Plus (.leaf 1) (.operation .Minus (.leaf 5) (.leaf 2)))
         = .ok (.integer 4)) := by
  refine ⟨?_, by decide, by decide, fun schema row => rfl⟩
  intro E rest f hrest hf
  exact ⟨Sql.pe_phrase E rest f hrest hf, fun h => Sql.evalNoCtx_phrase E h⟩

/-- Witness for C4: the paren-free phrase `-5 + 5` (negation binding tighter
than the binary plus) parsed with concrete fuel and evaluated to `0`, via
the amended theorem with all hypotheses discharged. -/
theorem c4_arithmetic_subset_witness :
    Sql.parse_expression 14 0
        (Sql.PFExpr.toks ⟨.neg (.lit 5), [(.Plus, .lit 5)]⟩
          ++ [Sql.Token.TERMINATE])
      = .ok (.operation .Plus (.negate (.leaf 5)) (.leaf 5),
             [Sql.Token.TERMINATE]) ∧
    Sql.Expr.evalNoCtx (.operation .Plus (.negate (.leaf 5)) (.leaf 5))
      = .ok (.integer 0) :=
  have h := c4_arithmetic_subset.1 ⟨.neg (.lit 5), [(.Plus, .lit 5)]⟩
    [Sql.Token.TERMINATE] 14
    (show Sql.Token.rbp Sql.Token.TERMINATE ≤ 0 from by decide)
    (by decide)
  ⟨h.1, h.2 (by
    refine ⟨⟨trivial, ?_⟩, trivial, ?_, trivial⟩
    · exact ⟨by norm_num [Sql.PFTerm.sem], by norm_num [Sql.PFTerm.sem]⟩
    · exact ⟨by norm_num [Sql.opApply, Sql.PFTerm.sem],
        by norm_num [Sql.opApply, Sql.PFTerm.sem]⟩)⟩
